import Mathlib

/-!
Verification of the analysis core of the `replit_chess_dashboard` repository.

The development shallowly embeds the TypeScript sources:

* `server/pgn-parser.ts` (`parsePgn`, `parseMoves`, `extractBasicInfo`):
  embedded as pure functions over `List Char`.  The JavaScript regular
  expressions used by the source are embedded as equivalent explicit
  scanners (the equivalence argument for each regex is noted at the
  corresponding definition).
* `server/analysis.ts` (`ChessAnalyzer`, `MockStockfish`): embedded as pure
  functions parameterised by a `Rules` record, the contract of the external
  `chess.js` rules engine (spec section 6 treats the rules engine as an
  external capability).  The mutable `Chess` instance is embedded as an
  explicitly threaded state with a history stack (`EngineSt`), so that
  `move`/`undo` pairs are visible in the model.

JavaScript numbers holding evaluations are embedded as `Rat` (all values
produced by the code are small integers or halves; no floating point
rounding is exercised by the source's arithmetic, which only adds and
subtracts piece values and compares against 0.2/0.5/1/2).  Exceptions are
embedded as `Option`/failure values; a `try`/`catch` in the source becomes
a `match` on the fallible result.
-/

namespace ChessDash

/-! ### JavaScript string primitives -/

/-- JavaScript `\s` (whitespace class), restricted to the ASCII whitespace
characters; the repository's PGN inputs only contain these. -/
def jsIsSpace (c : Char) : Bool :=
  c = ' ' || c = '\t' || c = '\n' || c = '\r' || c = '\x0b' || c = '\x0c'

/-- JavaScript `\w` (word class). -/
def isWordChar (c : Char) : Bool :=
  ('a' ≤ c && c ≤ 'z') || ('A' ≤ c && c ≤ 'Z') || c.isDigit || c = '_'

/-- The character class `[a-zA-Z0-9]` used by `parseMoves`. -/
def isAlnum (c : Char) : Bool :=
  ('a' ≤ c && c ≤ 'z') || ('A' ≤ c && c ≤ 'Z') || c.isDigit

/-- `String.prototype.toLowerCase`, on the ASCII range (the repository only
compares ASCII user names and header keys). -/
def jsToLowerChar (c : Char) : Char :=
  if 'A' ≤ c && c ≤ 'Z' then Char.ofNat (c.toNat + 32) else c

def jsToLowerStr (s : String) : String :=
  (s.toList.map jsToLowerChar).asString

/-- `pgn.replace(/\r\n/g, '\n')`. -/
def stripCRLF : List Char → List Char
  | [] => []
  | '\r' :: '\n' :: t => '\n' :: stripCRLF t
  | c :: t => c :: stripCRLF t

/-- `String.prototype.trim`. -/
def jsTrim (cs : List Char) : List Char :=
  ((cs.dropWhile jsIsSpace).reverse.dropWhile jsIsSpace).reverse

/-- One attempt of the header regex `\[(\w+)\s+"([^"]*)"\]` anchored at the
head of the input: `[`, then one or more word characters, one or more
whitespace characters, `"`, any non-quote characters, `"`, `]`.  The regex
classes `\w`, `\s`, `[^"]` are pairwise distinguished by their first
following literal, so the greedy scan below matches the backtracking
regex engine exactly. -/
def takeHeaderAt : List Char → Option ((String × String) × List Char)
  | '[' :: r1 =>
    let key := r1.takeWhile isWordChar
    let r2 := r1.dropWhile isWordChar
    if key.isEmpty then none
    else
      let sp := r2.takeWhile jsIsSpace
      let r3 := r2.dropWhile jsIsSpace
      if sp.isEmpty then none
      else
        match r3 with
        | '"' :: r4 =>
          let v := r4.takeWhile (fun c => c ≠ '"')
          match r4.dropWhile (fun c => c ≠ '"') with
          | '"' :: ']' :: r5 => some ((key.asString, v.asString), r5)
          | _ => none
        | _ => none
  | _ => none

/-- The `while ((headerMatch = headerRegex.exec(cleanPgn)) !== null)` loop:
scan left to right, at each position try the header pattern; on a match
continue after it, otherwise advance one character.  The fuel argument is
always called with the input length, which bounds the number of steps. -/
def scanHeadersAux : Nat → List Char → List (String × String)
  | 0, _ => []
  | _ + 1, [] => []
  | fuel + 1, c :: t =>
    match takeHeaderAt (c :: t) with
    | some (kv, rest) => kv :: scanHeadersAux fuel rest
    | none => scanHeadersAux fuel t

def scanHeaders (cs : List Char) : List (String × String) :=
  scanHeadersAux cs.length cs

/-! ### Data model of the parser (`pgn-parser.ts`) -/

structure ChessMove where
  move : String
deriving DecidableEq, Repr

structure ChessGame where
  event : Option String := none
  site : Option String := none
  date : Option String := none
  white : Option String := none
  black : Option String := none
  result : Option String := none
  timeControl : Option String := none
  eco : Option String := none
  opening : Option String := none
  fen : Option String := none
  moves : List ChessMove := []
  rawPgn : String := ""
deriving DecidableEq, Repr

/-- The `switch (key.toLowerCase())` statement storing one recognized header. -/
def applyHeader (g : ChessGame) (kv : String × String) : ChessGame :=
  let key := jsToLowerStr kv.1
  if key = "event" then { g with event := some kv.2 }
  else if key = "site" then { g with site := some kv.2 }
  else if key = "date" then { g with date := some kv.2 }
  else if key = "white" then { g with white := some kv.2 }
  else if key = "black" then { g with black := some kv.2 }
  else if key = "result" then { g with result := some kv.2 }
  else if key = "timecontrol" then { g with timeControl := some kv.2 }
  else if key = "eco" then { g with eco := some kv.2 }
  else if key = "opening" then { g with opening := some kv.2 }
  else if key = "fen" then { g with fen := some kv.2 }
  else g

/-- `moveText.replace(/\s*(1-0|0-1|1\/2-1\/2|\*)\s*$/, '')`: the end-anchored
match is removed by dropping, from the right, trailing whitespace, one of
the four result tokens, and the whitespace in front of it; if no token is
found the text is unchanged (no token is a suffix of another, so the
alternation order is immaterial). -/
def stripResultSuffix (cs : List Char) : List Char :=
  let r := cs.reverse.dropWhile jsIsSpace
  if ['0', '-', '1'].isPrefixOf r then ((r.drop 3).dropWhile jsIsSpace).reverse
  else if ['1', '-', '0'].isPrefixOf r then ((r.drop 3).dropWhile jsIsSpace).reverse
  else if ['2', '/', '1', '-', '2', '/', '1'].isPrefixOf r then
    ((r.drop 7).dropWhile jsIsSpace).reverse
  else if ['*'].isPrefixOf r then ((r.drop 1).dropWhile jsIsSpace).reverse
  else cs

/-- `moveText.replace(/\d+\.\s*/g, '')`: a maximal digit run followed by a
dot is removed together with the whitespace after the dot; a digit run not
followed by a dot is kept (no position inside such a run can start a match,
since `\d+` must be followed by `.`).  Fuel-bounded scan, called with the
input length. -/
def rmMoveNumsAux : Nat → List Char → List Char
  | 0, cs => cs
  | _ + 1, [] => []
  | fuel + 1, c :: t =>
    if c.isDigit then
      let ds := (c :: t).takeWhile Char.isDigit
      let rest := (c :: t).dropWhile Char.isDigit
      match rest with
      | '.' :: r2 => rmMoveNumsAux fuel (r2.dropWhile jsIsSpace)
      | _ => ds ++ rmMoveNumsAux fuel rest
    else c :: rmMoveNumsAux fuel t

def rmMoveNums (cs : List Char) : List Char :=
  rmMoveNumsAux cs.length cs

/-- `moveText.split(/\s+/)` followed by the
`filter(part => part.trim() !== '')`: the surviving parts are exactly the
maximal runs of non-whitespace characters, in order. -/
def splitWsAux : Nat → List Char → List (List Char)
  | 0, _ => []
  | fuel + 1, cs =>
    let cs1 := cs.dropWhile jsIsSpace
    match cs1 with
    | [] => []
    | c :: t =>
      ((c :: t).takeWhile (fun a => !jsIsSpace a)) ::
        splitWsAux fuel ((c :: t).dropWhile (fun a => !jsIsSpace a))

def splitWs (cs : List Char) : List (List Char) :=
  splitWsAux cs.length cs

/-- `parseMoves` from `pgn-parser.ts`: strip a trailing result token, strip
move-number prefixes, split on whitespace, keep tokens containing at least
one alphanumeric character. -/
def parseMoves (moveText : List Char) (game : ChessGame) : ChessGame :=
  let t1 := stripResultSuffix moveText
  let t2 := rmMoveNums t1
  let moveParts := splitWs t2
  { game with
    moves := game.moves ++
      ((moveParts.filter (fun w => w.any isAlnum)).map
        (fun w => { move := w.asString })) }

/-- `parsePgn` from `pgn-parser.ts`. -/
def parsePgn (pgn : String) : ChessGame :=
  let cleanPgn := jsTrim (stripCRLF pgn.toList)
  let game : ChessGame := { moves := [], rawPgn := cleanPgn.asString }
  let game := (scanHeaders cleanPgn).foldl applyHeader game
  if cleanPgn.contains ']' then
    parseMoves (jsTrim ((cleanPgn.reverse.takeWhile (fun c => c ≠ ']')).reverse)) game
  else
    parseMoves cleanPgn game

/-! ### `extractBasicInfo` (`pgn-parser.ts`) -/

/-- JavaScript `parseInt(s)` in base 10, as `Option`: `none` is `NaN`.
Leading whitespace is skipped, an optional sign is read, then a maximal
run of decimal digits; with no digit the result is `NaN`, and anything
after the digits is ignored. -/
def parseIntJS (s : String) : Option Int :=
  let cs := s.toList.dropWhile jsIsSpace
  let digitsVal : List Char → Option Nat := fun t =>
    let ds := t.takeWhile Char.isDigit
    if ds.isEmpty then none
    else some (ds.foldl (fun a c => a * 10 + (c.toNat - 48)) 0)
  match cs with
  | '-' :: t => (digitsVal t).map (fun n => -(n : Int))
  | '+' :: t => (digitsVal t).map (fun n => (n : Int))
  | t => (digitsVal t).map (fun n => (n : Int))

/-- `String.prototype.split('.')`, keeping empty parts. -/
def splitOnDots : List Char → List (List Char)
  | [] => [[]]
  | '.' :: t => [] :: splitOnDots t
  | c :: t =>
    match splitOnDots t with
    | h :: r => (c :: h) :: r
    | [] => [[c]]

/-- The date computation of `extractBasicInfo`: split the `Date` header on
`.`; with exactly three parts each parsed by `parseInt` (`NaN` checked via
`isNaN`), build `new Date(year, month - 1, day)`.  A JavaScript `Date` is
embedded by its three constructor arguments (year, zero-based month, day). -/
def parseDateParts (d : String) : Option (Int × Int × Int) :=
  match (splitOnDots d.toList).map List.asString with
  | [p0, p1, p2] =>
    match parseIntJS p0, parseIntJS p1, parseIntJS p2 with
    | some y, some mo, some dd => some (y, mo - 1, dd)
    | _, _, _ => none
  | _ => none

/-- JavaScript `o || dflt` over an optional string field (an empty string is
falsy). -/
def jsOrStr (o : Option String) (dflt : String) : String :=
  match o with
  | some s => if s = "" then dflt else s
  | none => dflt

structure BasicInfo where
  white : String
  black : String
  result : String
  date : Option (Int × Int × Int)
  opening : Option String
  timeControl : Option String
deriving DecidableEq, Repr

/-- `extractBasicInfo` from `pgn-parser.ts`. -/
def extractBasicInfo (pgn : String) : BasicInfo :=
  let game := parsePgn pgn
  let date : Option (Int × Int × Int) :=
    match game.date with
    | some d => parseDateParts d
    | none => none
  { white := jsOrStr game.white "Unknown"
    black := jsOrStr game.black "Unknown"
    result := jsOrStr game.result "*"
    date := date
    opening := game.opening
    timeControl := game.timeControl }

/-! ### `determineUserColor` (`analysis.ts`) -/

/-- `parsedGame.white?.toLowerCase() === username.toLowerCase()` (optional
chaining: an absent header compares unequal). -/
def optEqLower (o : Option String) (username : String) : Bool :=
  match o with
  | some s => jsToLowerStr s == jsToLowerStr username
  | none => false

/-- `ChessAnalyzer.determineUserColor`. -/
def determineUserColor (parsedGame : ChessGame) (username : String) : String :=
  if optEqLower parsedGame.white username then "white"
  else if optEqLower parsedGame.black username then "black"
  else "white"

/-! ### The rules-engine contract (the external `chess.js` dependency)

Spec section 6 lists the capabilities the core consumes from a standard
chess rules library.  `Rules` is that contract; the analysis code below is
defined for an arbitrary instance, and concrete instances are supplied for
witnesses and counterexamples. -/

/-- A verbose legal move as returned by `chess.moves({ verbose: true })`:
the SAN string and the flags string (`'c'` marks a capture). -/
structure MoveV where
  san : String
  flags : String
deriving DecidableEq, Repr

/-- A board square's occupant as returned by `chess.board()` / `chess.get`:
type in `p n b r q k`, color `'w'` or `'b'`. -/
structure Piece where
  type : Char
  color : Char
deriving DecidableEq, Repr

structure Rules where
  Pos : Type
  /-- The position after `chess.reset()` / `new Chess()`. -/
  initial : Pos
  /-- `chess.moves({ verbose: true })` (same length as `chess.moves()`). -/
  moves : Pos → List MoveV
  /-- `chess.move(verboseMove)` for a move from `moves` (always succeeds). -/
  apply : Pos → MoveV → Pos
  /-- `chess.move(sanString)`: `none` embeds the thrown exception. -/
  applySan : Pos → String → Option Pos
  /-- `chess.turn()`: `'w'` or `'b'`. -/
  turn : Pos → Char
  /-- `chess.board()`: 8×8, row 0 = rank 8, col 0 = file a. -/
  boardGrid : Pos → List (List (Option Piece))
  /-- `chess.isAttacked(square, byColor)`. -/
  isAttacked : Pos → String → Char → Bool
  /-- `chess.get(square)`. -/
  get : Pos → String → Option Piece
  /-- `chess.fen()`. -/
  fen : Pos → String
  /-- `chess.load(fenString)`: `none` embeds the thrown exception. -/
  load : String → Option Pos

/-- A `Chess` instance's mutable state: the current position and the
history stack that `move`/`undo` push and pop. -/
structure EngineSt (R : Rules) where
  cur : R.Pos
  hist : List R.Pos

/-- `chess.move(verboseMove)`: apply and push the old position. -/
def EngineSt.push {R : Rules} (st : EngineSt R) (m : MoveV) : EngineSt R :=
  ⟨R.apply st.cur m, st.cur :: st.hist⟩

/-- `chess.undo()`: pop (a no-op on an empty history, as in chess.js). -/
def EngineSt.pop {R : Rules} (st : EngineSt R) : EngineSt R :=
  match st with
  | ⟨_, h :: t⟩ => ⟨h, t⟩
  | ⟨c, []⟩ => ⟨c, []⟩

/-- `chess.move(sanString)`: apply and push, or fail. -/
def EngineSt.moveSan {R : Rules} (st : EngineSt R) (san : String) : Option (EngineSt R) :=
  (R.applySan st.cur san).map (fun p => ⟨p, st.cur :: st.hist⟩)

/-- `chess.reset()`. -/
def EngineSt.reset {R : Rules} (_st : EngineSt R) : EngineSt R :=
  ⟨R.initial, []⟩

/-- `MockStockfish.setPosition`: `chess.load(fen)`, falling back to the
start position when the load throws. -/
def EngineSt.loadFen {R : Rules} (st : EngineSt R) (f : String) : EngineSt R :=
  match R.load f with
  | some p => ⟨p, []⟩
  | none => st.reset

/-- `board[row][col]` with out-of-range lookups empty. -/
def gridGet (g : List (List (Option Piece))) (row col : Nat) : Option Piece :=
  match g.get? row with
  | some r => (r.get? col).join
  | none => none

/-- `String.fromCharCode(97 + col) + (8 - row)` for the 0–7 loop bounds. -/
def squareName (row col : Nat) : String :=
  ⟨[Char.ofNat (97 + col), Char.ofNat (48 + (8 - row))]⟩

def otherColor (c : Char) : Char :=
  if c = 'w' then 'b' else 'w'

/-- `ChessAnalyzer.countAttackedPieces`: with `turn` the side to move of
the position it is called on, count the pieces of the *other* color
standing on squares attacked by `turn`.  (Its internal `try`/`catch`
cannot fire: every operation here is total.) -/
def countAttackedPieces (R : Rules) (p : R.Pos) : Nat :=
  let turn := R.turn p
  let opponent := otherColor turn
  let board := R.boardGrid p
  (List.range 8).foldl (fun acc row =>
    (List.range 8).foldl (fun acc col =>
      match gridGet board row col with
      | some piece =>
        if piece.color = opponent && R.isAttacked p (squareName row col) turn then
          acc + 1
        else acc
      | none => acc) acc) 0

/-! ### `ChessAnalyzer.findTactics` -/

structure TacticInfo where
  hasTactic : Bool
  tacticType : String
  bestMove : String
  explanation : String
deriving DecidableEq, Repr

def noTactic : TacticInfo :=
  { hasTactic := false, tacticType := "", bestMove := "", explanation := "" }

/-- The fork-detection loop of `findTactics`: hypothetically apply each
candidate, test `countAttackedPieces ≥ 2` on the resulting position, undo,
and return at the first hit. -/
def forkLoop (R : Rules) (st : EngineSt R) : List MoveV → Option TacticInfo × EngineSt R
  | [] => (none, st)
  | m :: rest =>
    let st1 := st.push m
    let attackedPieces := countAttackedPieces R st1.cur
    if attackedPieces ≥ 2 then
      (some { hasTactic := true, tacticType := "Fork", bestMove := m.san,
              explanation := "There's a fork opportunity where your piece can attack multiple pieces at once." },
       st1.pop)
    else forkLoop R st1.pop rest

/-- `move.flags.includes('c')`. -/
def flagsHasCapture (flags : String) : Bool :=
  flags.toList.contains 'c'

/-- The pin/skewer loop of `findTactics`: for each capturing candidate,
hypothetically apply it, test whether the opponent then has fewer than 10
legal moves, undo, and return at the first hit. -/
def pinLoop (R : Rules) (st : EngineSt R) : List MoveV → Option TacticInfo × EngineSt R
  | [] => (none, st)
  | m :: rest =>
    if flagsHasCapture m.flags then
      let st1 := st.push m
      let opponentMoves := (R.moves st1.cur).length
      if opponentMoves < 10 then
        (some { hasTactic := true, tacticType := "Pin/Skewer", bestMove := m.san,
                explanation := "There's an opportunity to pin or skewer one of your opponent's pieces." },
         st1.pop)
      else pinLoop R st1.pop rest
    else pinLoop R st rest

/-- `ChessAnalyzer.findTactics`.  The candidate list is computed once at
entry, as in the source; the `try`/`catch` cannot fire (all probing
operations are total), so the default no-tactic result is returned when
both loops find nothing. -/
def findTactics (R : Rules) (st : EngineSt R) : TacticInfo × EngineSt R :=
  let ms := R.moves st.cur
  match forkLoop R st ms with
  | (some t, st') => (t, st')
  | (none, st') =>
    match pinLoop R st' ms with
    | (some t, st'') => (t, st'')
    | (none, st'') => (noTactic, st'')

/-! ### `MockStockfish` -/

/-- The `pieceValues` table of `evaluateMaterial` (`|| 0` maps the king and
anything unknown to 0). -/
def pieceValue (t : Char) : Rat :=
  if t = 'p' then 1
  else if t = 'n' then 3
  else if t = 'b' then 3
  else if t = 'r' then 5
  else if t = 'q' then 9
  else 0

/-- `MockStockfish.evaluateMaterial`: signed material count, white
positive.  `piece.type.toLowerCase()` is embedded literally even though
chess.js types are already lower case. -/
def evaluateMaterial (R : Rules) (p : R.Pos) : Rat :=
  let board := R.boardGrid p
  (List.range 8).foldl (fun score row =>
    (List.range 8).foldl (fun score col =>
      match gridGet board row col with
      | some piece =>
        let value := pieceValue (jsToLowerChar piece.type)
        if piece.color = 'w' then score + value else score - value
      | none => score) score) 0

structure BestMove where
  move : String
  evaluation : Rat
deriving DecidableEq, Repr

/-- The `for (const move of moves)` loop of `MockStockfish.getBestMove`:
apply, negate the evaluation, undo, keep the strict maximum. -/
def bestLoop (R : Rules) (st : EngineSt R) (best : BestMove) :
    List MoveV → BestMove × EngineSt R
  | [] => (best, st)
  | m :: rest =>
    let st1 := st.push m
    let evaluation := -(evaluateMaterial R st1.cur)
    let st2 := st1.pop
    if best.evaluation < evaluation then
      bestLoop R st2 { move := m.san, evaluation := evaluation } rest
    else bestLoop R st2 best rest

/-- `MockStockfish.getBestMove`.  The source seeds the accumulator with
`evaluation: -Infinity`, which the first iteration always replaces (every
material evaluation is finite), so the loop is seeded here with the first
move's entry; an empty move list returns the `{ move: '', evaluation: 0 }`
default before the loop. -/
def getBestMove (R : Rules) (st : EngineSt R) : BestMove × EngineSt R :=
  match R.moves st.cur with
  | [] => ({ move := "", evaluation := 0 }, st)
  | m :: rest =>
    let st1 := st.push m
    let evaluation := -(evaluateMaterial R st1.cur)
    bestLoop R st1.pop { move := m.san, evaluation := evaluation } rest

/-! ### Result records of the four pipelines (`analysis.ts` interfaces) -/

structure KeyMoment where
  moveNumber : Nat
  position : String
  type : String
  description : String
deriving DecidableEq, Repr

structure GameAnalysisResult where
  outcome : String
  userColor : String
  accuracy : Rat
  blunders : Nat
  mistakes : Nat
  inaccuracies : Nat
  keyMoments : List KeyMoment
deriving DecidableEq, Repr

structure MissedTactic where
  moveNumber : Nat
  position : String
  tactic : String
  explanation : String
deriving DecidableEq, Repr

structure ExecutedTactic where
  moveNumber : Nat
  position : String
  tactic : String
deriving DecidableEq, Repr

structure TacticsAnalysisResult where
  missedTactics : List MissedTactic
  executedTactics : List ExecutedTactic
deriving DecidableEq, Repr

structure CommonLine where
  name : String
  moves : String
deriving DecidableEq, Repr

structure OpeningsAnalysisResult where
  eco : String
  name : String
  accuracy : Rat
  commonLines : List CommonLine
  recommendations : List String
deriving DecidableEq, Repr

structure FundamentalsAnalysisResult where
  pieceDevelopment : Rat
  centerControl : Rat
  kingSafety : Rat
  pawnStructure : Rat
  recommendations : List String
deriving DecidableEq, Repr

structure AnalysisBundle where
  game : GameAnalysisResult
  tactics : TacticsAnalysisResult
  openings : OpeningsAnalysisResult
  fundamentals : FundamentalsAnalysisResult
deriving DecidableEq, Repr

/-- The `isUserMove` test shared by the pipelines:
`(chess.turn() === 'w' && userColor === 'white') || (chess.turn() === 'b' && userColor === 'black')`. -/
def isUserMoveAt (R : Rules) (p : R.Pos) (userColor : String) : Bool :=
  (R.turn p == 'w' && userColor == "white") ||
    (R.turn p == 'b' && userColor == "black")

/-! ### `ChessAnalyzer.runGameAnalysis` -/

/-- The outcome computation at the top of `runGameAnalysis`
(`if (parsedGame.result)`: an empty result string is falsy). -/
def outcomeOf (result : Option String) (userColor : String) : String :=
  match result with
  | none => "Unknown"
  | some r =>
    if r = "" then "Unknown"
    else if r = "1-0" then (if userColor = "white" then "Win" else "Loss")
    else if r = "0-1" then (if userColor = "black" then "Win" else "Loss")
    else if r = "1/2-1/2" then "Draw"
    else "Unknown"

/-- The mutable locals of the `runGameAnalysis` move loop: the analyzer's
board (`chess`), the engine's internal board (`this.chessEngine.chess`),
the index `i` and the counters. -/
structure GameAcc (R : Rules) where
  st : EngineSt R
  eng : EngineSt R
  i : Nat
  totalMoves : Nat
  goodMoves : Nat
  blunders : Nat
  mistakes : Nat
  inaccuracies : Nat
  keyMoments : List KeyMoment

/-- The move loop of `runGameAnalysis`.  On a user move the per-move `try`
body runs the engine queries and applies the move; its only fallible step
is `chess.move(moveInfo.move)` (the engine methods catch internally), and
the `catch` handler replays exactly that call — a second failure escapes
to the loop's outer `try`/`catch`, which ends the traversal with the
counters gathered so far.  The thresholds 0.5 and 0.2 are embedded as the
rationals 1/2 and 1/5; every evaluation difference the code builds is an
integer (piece values are integers), so the comparison against the binary
floating-point literals of the source is unchanged by this reading. -/
def gameLoop (R : Rules) (userColor : String) :
    List ChessMove → GameAcc R → GameAcc R
  | [], acc => acc
  | mi :: rest, acc =>
    let currentPosition := R.fen acc.st.cur
    if isUserMoveAt R acc.st.cur userColor then
      let totalMoves := acc.totalMoves + 1
      let eng1 := acc.eng.loadFen currentPosition
      let gb := getBestMove R eng1
      let bestMove := gb.1
      let eng2 := gb.2
      match acc.st.moveSan mi.move with
      | none =>
        (match acc.st.moveSan mi.move with
         | none => { acc with eng := eng2, totalMoves := totalMoves }
         | some st' =>
           gameLoop R userColor rest
             { acc with st := st', eng := eng2, i := acc.i + 1, totalMoves := totalMoves })
      | some st' =>
        let eng3 := eng2.loadFen (R.fen st'.cur)
        let afterMoveEval := evaluateMaterial R eng3.cur
        let evalDiff := |bestMove.evaluation - afterMoveEval|
        let upd :=
          if evalDiff > 2 then
            (acc.goodMoves, acc.blunders + 1, acc.mistakes, acc.inaccuracies, "blunder")
          else if evalDiff > 1 then
            (acc.goodMoves, acc.blunders, acc.mistakes + 1, acc.inaccuracies, "mistake")
          else if evalDiff > (1 : Rat) / 2 then
            (acc.goodMoves, acc.blunders, acc.mistakes, acc.inaccuracies + 1, "inaccuracy")
          else
            (acc.goodMoves + 1, acc.blunders, acc.mistakes, acc.inaccuracies,
              if evalDiff < (1 : Rat) / 5 then "excellent" else "good")
        let moveQuality := upd.2.2.2.2
        let keyMoments :=
          if moveQuality = "blunder" || moveQuality = "excellent" then
            acc.keyMoments ++
              [{ moveNumber := acc.i / 2 + 1, position := currentPosition,
                 type := moveQuality,
                 description :=
                   if moveQuality = "blunder" then
                     bestMove.move ++ " would have been much better."
                   else "Perfect move!" }]
          else acc.keyMoments
        gameLoop R userColor rest
          { st := st', eng := eng3, i := acc.i + 1, totalMoves := totalMoves,
            goodMoves := upd.1, blunders := upd.2.1, mistakes := upd.2.2.1,
            inaccuracies := upd.2.2.2.1, keyMoments := keyMoments }
    else
      match acc.st.moveSan mi.move with
      | none => gameLoop R userColor rest { acc with i := acc.i + 1 }
      | some st' => gameLoop R userColor rest { acc with st := st', i := acc.i + 1 }

/-- `ChessAnalyzer.runGameAnalysis`.  Returns the result together with the
final states of the analyzer's board and of the engine's board (both are
mutated in place in the source). -/
def runGameAnalysis (R : Rules) (chess eng : EngineSt R)
    (parsedGame : ChessGame) (userColor : String) :
    GameAnalysisResult × EngineSt R × EngineSt R :=
  let st0 := chess.reset
  let outcome := outcomeOf parsedGame.result userColor
  let acc := gameLoop R userColor parsedGame.moves
    { st := st0, eng := eng, i := 0, totalMoves := 0, goodMoves := 0,
      blunders := 0, mistakes := 0, inaccuracies := 0, keyMoments := [] }
  let accuracy : Rat :=
    if acc.totalMoves > 0 then ((acc.goodMoves : Rat) / (acc.totalMoves : Rat)) * 100 else 0
  ({ outcome := outcome, userColor := userColor, accuracy := accuracy,
     blunders := acc.blunders, mistakes := acc.mistakes,
     inaccuracies := acc.inaccuracies, keyMoments := acc.keyMoments },
   acc.st, acc.eng)

/-! ### `ChessAnalyzer.runTacticsAnalysis` -/

structure TacticsAcc (R : Rules) where
  st : EngineSt R
  i : Nat
  missed : List MissedTactic
  executed : List ExecutedTactic

/-- The move loop of `runTacticsAnalysis`.  As in `gameLoop`, the only
fallible step of the per-move `try` body is `chess.move(moveInfo.move)`;
the `catch` replays it and a second failure ends the traversal through the
outer `try`/`catch`. -/
def tacticsLoop (R : Rules) (userColor : String) :
    List ChessMove → TacticsAcc R → TacticsAcc R
  | [], acc => acc
  | mi :: rest, acc =>
    let currentPosition := R.fen acc.st.cur
    if isUserMoveAt R acc.st.cur userColor then
      let ft := findTactics R acc.st
      let tactics := ft.1
      let st1 := ft.2
      match st1.moveSan mi.move with
      | none =>
        (match st1.moveSan mi.move with
         | none => { acc with st := st1 }
         | some st2 => tacticsLoop R userColor rest { acc with st := st2, i := acc.i + 1 })
      | some st2 =>
        if tactics.hasTactic && tactics.bestMove != mi.move then
          tacticsLoop R userColor rest
            { st := st2, i := acc.i + 1,
              missed := acc.missed ++
                [{ moveNumber := acc.i / 2 + 1, position := currentPosition,
                   tactic := tactics.tacticType, explanation := tactics.explanation }],
              executed := acc.executed }
        else if tactics.hasTactic then
          tacticsLoop R userColor rest
            { st := st2, i := acc.i + 1, missed := acc.missed,
              executed := acc.executed ++
                [{ moveNumber := acc.i / 2 + 1, position := currentPosition,
                   tactic := tactics.tacticType }] }
        else
          tacticsLoop R userColor rest { acc with st := st2, i := acc.i + 1 }
    else
      match acc.st.moveSan mi.move with
      | none => tacticsLoop R userColor rest { acc with i := acc.i + 1 }
      | some st2 => tacticsLoop R userColor rest { acc with st := st2, i := acc.i + 1 }

/-- `ChessAnalyzer.runTacticsAnalysis`. -/
def runTacticsAnalysis (R : Rules) (chess : EngineSt R)
    (parsedGame : ChessGame) (userColor : String) :
    TacticsAnalysisResult × EngineSt R :=
  let st0 := chess.reset
  let acc := tacticsLoop R userColor parsedGame.moves
    { st := st0, i := 0, missed := [], executed := [] }
  ({ missedTactics := acc.missed, executedTactics := acc.executed }, acc.st)

/-! ### `ChessAnalyzer.runOpeningsAnalysis` -/

/-- `openingName.includes(knownOpening)`: substring containment. -/
def jsIncludes (hay sub : String) : Bool :=
  let h := hay.toList
  let s := sub.toList
  (List.range (h.length + 1)).any (fun i => s.isPrefixOf (h.drop i))

def openingsDatabase : List (String × List CommonLine) :=
  [("Sicilian",
    [{ name := "Main line", moves := "1. e4 c5 2. Nf3 d6 3. d4 cxd4 4. Nxd4" },
     { name := "Najdorf", moves := "1. e4 c5 2. Nf3 d6 3. d4 cxd4 4. Nxd4 Nf6 5. Nc3 a6" }]),
   ("Ruy Lopez",
    [{ name := "Main line", moves := "1. e4 e5 2. Nf3 Nc6 3. Bb5" },
     { name := "Berlin Defense", moves := "1. e4 e5 2. Nf3 Nc6 3. Bb5 Nf6" }]),
   ("French Defense",
    [{ name := "Main line", moves := "1. e4 e6 2. d4 d5" },
     { name := "Advance Variation", moves := "1. e4 e6 2. d4 d5 3. e5" }]),
   ("Queen's Gambit",
    [{ name := "Main line", moves := "1. d4 d5 2. c4" },
     { name := "Queen's Gambit Accepted", moves := "1. d4 d5 2. c4 dxc4" },
     { name := "Queen's Gambit Declined", moves := "1. d4 d5 2. c4 e6" }])]

/-- `ChessAnalyzer.getCommonLinesForOpening` (object keys iterate in
insertion order; the first substring match wins). -/
def getCommonLinesForOpening (openingName : String) : List CommonLine :=
  match openingsDatabase.find? (fun e => jsIncludes openingName e.1) with
  | some e => e.2
  | none =>
    [{ name := "Basic Opening Principles",
       moves := "1. Control the center 2. Develop pieces 3. Castle" },
     { name := "Common first moves",
       moves := "1. e4 or 1. d4 (as White), 1...e5 or 1...d5 (as Black)" }]

/-- `ChessAnalyzer.generateOpeningRecommendations`. -/
def generateOpeningRecommendations (openingName : String) (_userColor : String) :
    List String :=
  let generalRecommendations :=
    ["Focus on developing your pieces in the opening",
     "Control the center with pawns or pieces",
     "Castle early to protect your king",
     "Connect your rooks by developing pieces"]
  if jsIncludes openingName "Sicilian" then
    generalRecommendations ++
      ["In the Sicilian, be prepared for tactical complications",
       "The Sicilian often leads to imbalanced positions, so calculate carefully"]
  else if jsIncludes openingName "Ruy Lopez" || jsIncludes openingName "Spanish" then
    generalRecommendations ++
      ["The Ruy Lopez is a strategic opening, focus on long-term plans",
       "Be careful with the bishop on b5, it can be targeted"]
  else if jsIncludes openingName "French" then
    generalRecommendations ++
      ["In the French Defense, be prepared for closed positions",
       "Focus on pawn breaks to open up the position"]
  else if jsIncludes openingName "Queen's Gambit" then
    generalRecommendations ++
      ["The Queen's Gambit often leads to solid, positional play",
       "Focus on piece development and piece coordination"]
  else generalRecommendations

/-- The move loop of `runOpeningsAnalysis`: here `chess.move` is not
wrapped per move, so a failing move ends the loop through the outer
`try`/`catch` with the count gathered so far. -/
def openingsLoop (R : Rules) (userColor : String) :
    List ChessMove → EngineSt R → Nat → Nat → EngineSt R × Nat
  | [], st, _, correct => (st, correct)
  | mi :: rest, st, i, correct =>
    let isUser := isUserMoveAt R st.cur userColor
    match st.moveSan mi.move with
    | none => (st, correct)
    | some st' =>
      let correct := if isUser && i < 12 then correct + 1 else correct
      openingsLoop R userColor rest st' (i + 1) correct

/-- `ChessAnalyzer.runOpeningsAnalysis`. -/
def runOpeningsAnalysis (R : Rules) (chess : EngineSt R)
    (parsedGame : ChessGame) (userColor : String) :
    OpeningsAnalysisResult × EngineSt R :=
  let st0 := chess.reset
  let eco := jsOrStr parsedGame.eco ""
  let openingName := jsOrStr parsedGame.opening "Unknown Opening"
  let openingMoves := parsedGame.moves.take (min 20 parsedGame.moves.length)
  let ol := openingsLoop R userColor openingMoves st0 0 0
  let numCorrectMoves := ol.2
  let accuracy : Rat :=
    if openingMoves.length > 0 then
      ((numCorrectMoves : Rat) / ((min openingMoves.length 20 : Nat) : Rat)) * 100
    else 0
  let recommendations := generateOpeningRecommendations openingName userColor
  let commonLines := getCommonLinesForOpening openingName
  ({ eco := eco, name := openingName, accuracy := accuracy,
     commonLines := commonLines, recommendations := recommendations }, ol.1)

/-! ### `ChessAnalyzer.runFundamentalsAnalysis` -/

/-- `ChessAnalyzer.evaluatePieceDevelopment`: +10 per own knight or bishop
off the home rank. -/
def evaluatePieceDevelopment (R : Rules) (p : R.Pos) (userColor : String) : Rat :=
  let board := R.boardGrid p
  let color := if userColor == "white" then 'w' else 'b'
  (List.range 8).foldl (fun s row =>
    (List.range 8).foldl (fun s col =>
      match gridGet board row col with
      | some piece =>
        if piece.color = color && (piece.type = 'n' || piece.type = 'b') then
          let startingRow : Nat := if color = 'w' then 7 else 0
          if row ≠ startingRow then s + 10 else s
        else s
      | none => s) s) 0

/-- `ChessAnalyzer.evaluateCenterControl`: +15 per own piece on d4, d5,
e4, e5. -/
def evaluateCenterControl (R : Rules) (p : R.Pos) (userColor : String) : Rat :=
  let centerSquares := ["d4", "d5", "e4", "e5"]
  let color := if userColor == "white" then 'w' else 'b'
  centerSquares.foldl (fun s sq =>
    match R.get p sq with
    | some piece => if piece.color = color then s + 15 else s
    | none => s) 0

/-- `ChessAnalyzer.findKing`: first own king in row-major order. -/
def findKing (board : List (List (Option Piece))) (color : Char) :
    Option (Nat × Nat) :=
  (List.range 8).findSome? (fun row =>
    (List.range 8).findSome? (fun col =>
      match gridGet board row col with
      | some piece =>
        if piece.type = 'k' && piece.color = color then some (row, col) else none
      | none => none))

/-- `ChessAnalyzer.evaluateKingSafety`: 50 baseline, +30 for a king on a
canonical castled square (file b or g of the back rank). -/
def evaluateKingSafety (R : Rules) (p : R.Pos) (userColor : String) : Rat :=
  let color := if userColor == "white" then 'w' else 'b'
  let board := R.boardGrid p
  let safetyScore : Rat := 50
  match findKing board color with
  | some (row, col) =>
    if color = 'w' then
      if (col = 6 || col = 1) && row = 7 then safetyScore + 30 else safetyScore
    else
      if (col = 6 || col = 1) && row = 0 then safetyScore + 30 else safetyScore
  | none => safetyScore

/-- The per-file own-pawn count of `evaluatePawnStructure`. -/
def pawnsInFile (board : List (List (Option Piece))) (color : Char) (col : Nat) : Nat :=
  (List.range 8).foldl (fun n row =>
    match gridGet board row col with
    | some piece => if piece.type = 'p' && piece.color = color then n + 1 else n
    | none => n) 0

/-- The adjacent-file pawn test of `evaluatePawnStructure` (`adjCol` runs
over `[max 0 (col-1), min 7 (col+1)]`, skipping `col`). -/
def hasPawnAdj (board : List (List (Option Piece))) (color : Char) (col : Nat) : Bool :=
  (List.range 8).any (fun adjCol =>
    decide ((col ≤ adjCol + 1 ∧ adjCol ≤ col + 1 ∧ adjCol ≠ col) ∧
      0 < pawnsInFile board color adjCol))

/-- `ChessAnalyzer.evaluatePawnStructure`: 60 baseline, −5 per doubled
pawn beyond the first of a file, −5 per isolated pawn, floored at 0. -/
def evaluatePawnStructure (R : Rules) (p : R.Pos) (userColor : String) : Rat :=
  let color := if userColor == "white" then 'w' else 'b'
  let board := R.boardGrid p
  let counts := (List.range 8).foldl (fun (c : Nat × Nat) col =>
    let pif := pawnsInFile board color col
    let dbl := if pif > 1 then c.1 + (pif - 1) else c.1
    let iso := if pif > 0 && !hasPawnAdj board color col then c.2 + 1 else c.2
    (dbl, iso)) (0, 0)
  let structureScore : Rat := 60 - ((counts.1 : Rat) * 5 + (counts.2 : Rat) * 5)
  max 0 structureScore

structure FundAcc (R : Rules) where
  st : EngineSt R
  i : Nat
  dev : Rat
  center : Rat
  king : Rat
  pawn : Rat

/-- The move loop of `runFundamentalsAnalysis`: `chess.move` is not
wrapped per move, so a failing move ends the loop through the outer
`try`/`catch`; a user move with index < 40 adds the four heuristic scores
of the position after the move. -/
def fundLoop (R : Rules) (userColor : String) :
    List ChessMove → FundAcc R → FundAcc R
  | [], acc => acc
  | mi :: rest, acc =>
    let isUser := isUserMoveAt R acc.st.cur userColor
    match acc.st.moveSan mi.move with
    | none => acc
    | some st' =>
      if acc.i < 40 && isUser then
        fundLoop R userColor rest
          { st := st', i := acc.i + 1,
            dev := acc.dev + evaluatePieceDevelopment R st'.cur userColor,
            center := acc.center + evaluateCenterControl R st'.cur userColor,
            king := acc.king + evaluateKingSafety R st'.cur userColor,
            pawn := acc.pawn + evaluatePawnStructure R st'.cur userColor }
      else fundLoop R userColor rest { acc with st := st', i := acc.i + 1 }

/-- `Math.min(100, Math.max(0, score))`. -/
def clamp100 (x : Rat) : Rat :=
  min 100 (max 0 x)

/-- `ChessAnalyzer.generateFundamentalRecommendations`. -/
def generateFundamentalRecommendations (pd cc ks ps : Rat) : List String :=
  (if pd < 60 then
    ["Focus on developing your minor pieces (knights and bishops) early in the game",
     "Avoid moving the same piece multiple times in the opening"]
   else []) ++
  (if cc < 60 then
    ["Control the center with pawns or pieces",
     "Consider pawn moves like e4/d4 or e5/d5 to establish center presence"]
   else []) ++
  (if ks < 60 then
    ["Castle early to protect your king",
     "Avoid advancing pawns in front of your castled king without good reason"]
   else []) ++
  (if ps < 60 then
    ["Avoid creating doubled pawns unless there is compensation",
     "Try to maintain a connected pawn chain"]
   else [])

/-- `ChessAnalyzer.runFundamentalsAnalysis`. -/
def runFundamentalsAnalysis (R : Rules) (chess : EngineSt R)
    (parsedGame : ChessGame) (userColor : String) :
    FundamentalsAnalysisResult × EngineSt R :=
  let st0 := chess.reset
  let acc := fundLoop R userColor parsedGame.moves
    { st := st0, i := 0, dev := 0, center := 0, king := 0, pawn := 0 }
  let pieceDevelopmentScore := clamp100 acc.dev
  let centerControlScore := clamp100 acc.center
  let kingSafetyScore := clamp100 acc.king
  let pawnStructureScore := clamp100 acc.pawn
  ({ pieceDevelopment := pieceDevelopmentScore, centerControl := centerControlScore,
     kingSafety := kingSafetyScore, pawnStructure := pawnStructureScore,
     recommendations := generateFundamentalRecommendations
       pieceDevelopmentScore centerControlScore kingSafetyScore pawnStructureScore },
   acc.st)

/-! ### `ChessAnalyzer.fallbackAnalysis` and `ChessAnalyzer.analyzePgn` -/

/-- `ChessAnalyzer.fallbackAnalysis`: one fresh `Chess` instance threaded
sequentially through the four pipelines (each resets it), with the
analyzer's persistent `MockStockfish` state passed in. -/
def fallbackAnalysis (R : Rules) (eng : EngineSt R)
    (parsedGame : ChessGame) (userColor : String) : AnalysisBundle :=
  let chess : EngineSt R := ⟨R.initial, []⟩
  let rg := runGameAnalysis R chess eng parsedGame userColor
  let rt := runTacticsAnalysis R rg.2.1 parsedGame userColor
  let ro := runOpeningsAnalysis R rt.2 parsedGame userColor
  let rf := runFundamentalsAnalysis R ro.2 parsedGame userColor
  { game := rg.1, tactics := rt.1, openings := ro.1, fundamentals := rf.1 }

/-- `ChessAnalyzer.analyzePgn`.  The AI-assisted path is embedded by the
parameter `ai`: `some b` is a successful shape-bearing response of the
OpenRouter race (its content chosen by the external model), while `none`
covers the absent API key, the 30-second timeout and every AI-call
failure, all of which the source answers with `fallbackAnalysis`.  The
top-level `catch` (the zeroed bundle of lines 140–177) cannot fire in
this embedding because the parser and the fallback pipelines are total
functions. -/
def analyzePgn (R : Rules) (eng : EngineSt R) (ai : Option AnalysisBundle)
    (pgn username : String) : AnalysisBundle :=
  let parsedGame := parsePgn pgn
  let userColor := determineUserColor parsedGame username
  match ai with
  | some result => result
  | none => fallbackAnalysis R eng parsedGame userColor

/-! ### Concrete rules-engine instances

The analysis code above is stated over an arbitrary `Rules` instance;
witnesses and counterexamples evaluate it on the concrete instances below.
`gridAttacked` implements the standard chess attack relation over an 8×8
grid (knight/king/pawn steps, sliding pieces with blocking), standing in
for chess.js's `isAttacked` on the finitely many positions each instance
carries. -/

abbrev Grid := List (List (Option Piece))

def emptyGrid : Grid :=
  List.replicate 8 (List.replicate 8 (none : Option Piece))

def gridSet (g : Grid) (r c : Nat) (v : Option Piece) : Grid :=
  g.set r (((g.get? r).getD []).set c v)

def mkGrid (ps : List (Nat × Nat × Piece)) : Grid :=
  ps.foldl (fun g e => gridSet g e.1 e.2.1 (some e.2.2)) emptyGrid

def gridGetI (g : Grid) (r c : Int) : Option Piece :=
  if 0 ≤ r ∧ r ≤ 7 ∧ 0 ≤ c ∧ c ≤ 7 then gridGet g r.toNat c.toNat else none

def sgn (x : Int) : Int :=
  if 0 < x then 1 else if x < 0 then -1 else 0

/-- Every square strictly between `(r1,c1)` and `(r2,c2)` on the common
line is empty (callers ensure the two squares are on a rank, file or
diagonal). -/
def pathClear (g : Grid) (r1 c1 r2 c2 : Int) : Bool :=
  let n := max (r2 - r1).natAbs (c2 - c1).natAbs
  ((List.range n).drop 1).all (fun i =>
    (gridGetI g (r1 + sgn (r2 - r1) * i) (c1 + sgn (c2 - c1) * i)).isNone)

/-- A piece `p` on `(r1,c1)` attacks `(r2,c2)` on grid `g`, by the chess
attack rules (row 0 = rank 8, so a white pawn attacks toward smaller row
numbers). -/
def pieceAttacksSq (g : Grid) (p : Piece) (r1 c1 r2 c2 : Nat) : Bool :=
  let dr : Int := (r2 : Int) - (r1 : Int)
  let dc : Int := (c2 : Int) - (c1 : Int)
  if dr = 0 ∧ dc = 0 then false
  else if p.type = 'n' then
    decide ((dr.natAbs = 1 ∧ dc.natAbs = 2) ∨ (dr.natAbs = 2 ∧ dc.natAbs = 1))
  else if p.type = 'k' then
    decide (dr.natAbs ≤ 1 ∧ dc.natAbs ≤ 1)
  else if p.type = 'p' then
    decide ((if p.color = 'w' then dr = -1 else dr = 1) ∧ dc.natAbs = 1)
  else if p.type = 'b' then
    decide (dr.natAbs = dc.natAbs) && pathClear g r1 c1 r2 c2
  else if p.type = 'r' then
    decide (dr = 0 ∨ dc = 0) && pathClear g r1 c1 r2 c2
  else if p.type = 'q' then
    decide (dr.natAbs = dc.natAbs ∨ dr = 0 ∨ dc = 0) && pathClear g r1 c1 r2 c2
  else false

/-- Some piece of `byColor` attacks `(r,c)`. -/
def gridAttacked (g : Grid) (byColor : Char) (r c : Nat) : Bool :=
  (List.range 8).any (fun r1 =>
    (List.range 8).any (fun c1 =>
      match gridGet g r1 c1 with
      | some p => p.color = byColor && pieceAttacksSq g p r1 c1 r c
      | none => false))

/-- Decode a square name such as `"e4"` into `(row, col)`. -/
def decodeSquare (s : String) : Option (Nat × Nat) :=
  match s.toList with
  | [f, k] =>
    if 'a' ≤ f ∧ f ≤ 'h' ∧ '1' ≤ k ∧ k ≤ '8' then
      some (8 - (k.toNat - 48), f.toNat - 97)
    else none
  | _ => none

/-! #### The `c2Rules` instance: the fork position of claim C2

White: Ka1, Nd3.  Black: Ke6, Bg6.  White (the user) to move.  The
candidate `Nf4+` attacks both black pieces (a knight fork of king and
bishop); after every white candidate at most one *white* piece is attacked
by black, and no white candidate is a capture. -/

def wK : Piece := { type := 'k', color := 'w' }
def wN : Piece := { type := 'n', color := 'w' }
def bK : Piece := { type := 'k', color := 'b' }
def bB : Piece := { type := 'b', color := 'b' }

abbrev C2Pos := Grid × Char

def c2pos0 : C2Pos :=
  (mkGrid [(7, 0, wK), (5, 3, wN), (2, 4, bK), (2, 6, bB)], 'w')

/-- The position after a white knight move to `(r,c)`. -/
def c2afterN (r c : Nat) : C2Pos :=
  (mkGrid [(7, 0, wK), (r, c, wN), (2, 4, bK), (2, 6, bB)], 'b')

/-- The position after a white king move to `(r,c)`. -/
def c2afterK (r c : Nat) : C2Pos :=
  (mkGrid [(r, c, wK), (5, 3, wN), (2, 4, bK), (2, 6, bB)], 'b')

/-- The legal white moves in `c2pos0` with their target positions (none is
a capture, so all flags are `"n"`). -/
def c2moveTargets : List (MoveV × C2Pos) :=
  [({ san := "Ka2", flags := "n" }, c2afterK 6 0),
   ({ san := "Kb1", flags := "n" }, c2afterK 7 1),
   ({ san := "Kb2", flags := "n" }, c2afterK 6 1),
   ({ san := "Nb4", flags := "n" }, c2afterN 4 1),
   ({ san := "Nc5+", flags := "n" }, c2afterN 3 2),
   ({ san := "Ne5", flags := "n" }, c2afterN 3 4),
   ({ san := "Nf4+", flags := "n" }, c2afterN 4 5),
   ({ san := "Nf2", flags := "n" }, c2afterN 6 5),
   ({ san := "Ne1", flags := "n" }, c2afterN 7 4),
   ({ san := "Nc1", flags := "n" }, c2afterN 7 2),
   ({ san := "Nb2", flags := "n" }, c2afterN 6 1)]

def c2Rules : Rules where
  Pos := C2Pos
  initial := c2pos0
  moves := fun p => if p = c2pos0 then c2moveTargets.map Prod.fst else []
  apply := fun p m =>
    if p = c2pos0 then
      match c2moveTargets.find? (fun e => e.1 == m) with
      | some e => e.2
      | none => p
    else p
  applySan := fun p s =>
    if p = c2pos0 then (c2moveTargets.find? (fun e => e.1.san == s)).map Prod.snd
    else none
  turn := fun p => p.2
  boardGrid := fun p => p.1
  isAttacked := fun p sq c =>
    match decodeSquare sq with
    | some rc => gridAttacked p.1 c rc.1 rc.2
    | none => false
  get := fun p sq =>
    match decodeSquare sq with
    | some rc => gridGet p.1 rc.1 rc.2
    | none => none
  fen := fun p => if p = c2pos0 then "c2pos0" else "c2other"
  load := fun _ => none

/-! #### The `simpleRules` instance: a two-state engine for witnesses

Position 0 (white to move) has the single legal move `"a3"` leading to
position 1 (black to move, no moves); any other SAN fails to apply. -/

def simpleRules : Rules where
  Pos := Fin 2
  initial := 0
  moves := fun p => if p = 0 then [{ san := "a3", flags := "n" }] else []
  apply := fun p _ => if p = 0 then 1 else p
  applySan := fun p s => if p = 0 && s == "a3" then some 1 else none
  turn := fun p => if p = 0 then 'w' else 'b'
  boardGrid := fun _ => emptyGrid
  isAttacked := fun _ _ _ => false
  get := fun _ _ => none
  fen := fun p => if p = 0 then "f0" else "f1"
  load := fun s => if s == "f0" then some (0 : Fin 2) else if s == "f1" then some 1 else none

/-! ### State lemmas for the hypothetical apply/undo pairs -/

theorem EngineSt.pop_push (R : Rules) (st : EngineSt R) (m : MoveV) :
    (st.push m).pop = st := rfl

theorem EngineSt.push_cur (R : Rules) (st : EngineSt R) (m : MoveV) :
    (st.push m).cur = R.apply st.cur m := rfl

theorem forkLoop_state (R : Rules) (ms : List MoveV) :
    ∀ st : EngineSt R, (forkLoop R st ms).2 = st := by
  induction ms with
  | nil => intro st; rfl
  | cons m rest ih =>
    intro st
    simp only [forkLoop]
    split
    · exact EngineSt.pop_push R st m
    · exact ih st

theorem pinLoop_state (R : Rules) (ms : List MoveV) :
    ∀ st : EngineSt R, (pinLoop R st ms).2 = st := by
  induction ms with
  | nil => intro st; rfl
  | cons m rest ih =>
    intro st
    simp only [pinLoop]
    split
    · split
      · exact EngineSt.pop_push R st m
      · exact ih st
    · exact ih st

/-- C5: for every board state (any reachable position and history),
`findTactics` returns with the board exactly as it found it — every
hypothetical move it applies is undone before return, whether it reports a
tactic or none — and in particular the FEN of the position is unchanged. -/
theorem findTactics_preserves_board (R : Rules) (st : EngineSt R) :
    (findTactics R st).2 = st ∧ R.fen (findTactics R st).2.cur = R.fen st.cur := by
  have hmain : (findTactics R st).2 = st := by
    have hf := forkLoop_state R (R.moves st.cur) st
    simp only [findTactics]
    rcases hfork : forkLoop R st (R.moves st.cur) with ⟨ot, st'⟩
    rw [hfork] at hf
    cases ot with
    | some t => exact hf
    | none =>
      dsimp only
      have hp := pinLoop_state R (R.moves st.cur) st'
      rcases hpin : pinLoop R st' (R.moves st.cur) with ⟨ot2, st''⟩
      rw [hpin] at hp
      cases ot2 with
      | some t => exact hp.trans hf
      | none => exact hp.trans hf
  exact ⟨hmain, by rw [hmain]⟩

/-! ### The one-ply search of `MockStockfish.getBestMove` (claim C6) -/

/-- The negated material evaluation of the position reached by a candidate
move — the score the one-ply negamax assigns to the candidate. -/
def negEvalAt (R : Rules) (p : R.Pos) (m : MoveV) : Rat :=
  -(evaluateMaterial R (R.apply p m))

/-- Defined from the claim's words: the running selection that keeps the
strictly better candidate, so ties keep the earlier move. -/
def specSelect (f : MoveV → Rat) : MoveV → List MoveV → MoveV
  | b, [] => b
  | b, m :: rest => if f b < f m then specSelect f m rest else specSelect f b rest

theorem le_specSelect (f : MoveV → Rat) :
    ∀ (rest : List MoveV) (b : MoveV), f b ≤ f (specSelect f b rest) := by
  intro rest
  induction rest with
  | nil => intro b; exact le_refl _
  | cons m t ih =>
    intro b
    simp only [specSelect]
    split
    · exact le_trans (le_of_lt (by assumption)) (ih m)
    · exact ih b

theorem specSelect_mem (f : MoveV → Rat) :
    ∀ (rest : List MoveV) (b : MoveV), specSelect f b rest ∈ b :: rest := by
  intro rest
  induction rest with
  | nil => intro b; simp [specSelect]
  | cons m t ih =>
    intro b
    simp only [specSelect]
    split
    · have := ih m
      simp only [List.mem_cons] at this ⊢
      tauto
    · have := ih b
      simp only [List.mem_cons] at this ⊢
      tauto

theorem specSelect_max (f : MoveV → Rat) :
    ∀ (rest : List MoveV) (b : MoveV), ∀ x ∈ b :: rest, f x ≤ f (specSelect f b rest) := by
  intro rest
  induction rest with
  | nil => intro b x hx; simp at hx; subst hx; simp [specSelect]
  | cons m t ih =>
    intro b x hx
    simp only [List.mem_cons] at hx
    simp only [specSelect]
    split
    · rename_i hlt
      rcases hx with hx | hx | hx
      · rw [hx]; exact le_trans (le_of_lt hlt) (le_specSelect f t m)
      · rw [hx]; exact le_specSelect f t m
      · exact ih m x (by simp [hx])
    · rename_i hge
      rcases hx with hx | hx | hx
      · rw [hx]; exact le_specSelect f t b
      · rw [hx]; exact le_trans (le_of_not_lt hge) (le_specSelect f t b)
      · exact ih b x (by simp [hx])

/-- The accumulator changes only on strict improvement. -/
theorem specSelect_eq_or_lt (f : MoveV → Rat) :
    ∀ (rest : List MoveV) (b : MoveV),
      specSelect f b rest = b ∨ f b < f (specSelect f b rest) := by
  intro rest
  induction rest with
  | nil => intro b; left; rfl
  | cons m t ih =>
    intro b
    simp only [specSelect]
    split
    · rename_i hlt
      right
      exact lt_of_lt_of_le hlt (le_specSelect f t m)
    · exact ih b

/-- Among the candidates tied at the maximum, the selection is the first in
enumeration order. -/
theorem specSelect_first (f : MoveV → Rat) :
    ∀ (rest : List MoveV) (b : MoveV),
      (b :: rest).find? (fun x => decide (f (specSelect f b rest) ≤ f x)) =
        some (specSelect f b rest) := by
  intro rest
  induction rest with
  | nil =>
    intro b
    simp [specSelect, List.find?]
  | cons m t ih =>
    intro b
    simp only [specSelect]
    split
    · rename_i hlt
      have hnb : ¬ f (specSelect f m t) ≤ f b :=
        not_le_of_lt (lt_of_lt_of_le hlt (le_specSelect f t m))
      rw [List.find?_cons_of_neg _ (by simpa using hnb)]
      exact ih m
    · rename_i hge
      have hbm : f m ≤ f b := le_of_not_lt hge
      rcases specSelect_eq_or_lt f t b with heq | hlt2
      · rw [heq]
        rw [List.find?_cons_of_pos _ (by simp)]
      · have hnb : ¬ f (specSelect f b t) ≤ f b := not_le_of_lt hlt2
        have hnm : ¬ f (specSelect f b t) ≤ f m :=
          fun hc => hnb (le_trans hc hbm)
        rw [List.find?_cons_of_neg _ (by simpa using hnb),
          List.find?_cons_of_neg _ (by simpa using hnm)]
        have := ih b
        rw [List.find?_cons_of_neg _ (by simpa using hnb)] at this
        exact this

/-- The loop of `getBestMove` with the state abstracted away. -/
def selLoop (f : MoveV → Rat) : BestMove → List MoveV → BestMove
  | best, [] => best
  | best, m :: rest =>
    if best.evaluation < f m then selLoop f { move := m.san, evaluation := f m } rest
    else selLoop f best rest

theorem bestLoop_eq_selLoop (R : Rules) (st : EngineSt R) :
    ∀ (ms : List MoveV) (best : BestMove),
      bestLoop R st best ms = (selLoop (negEvalAt R st.cur) best ms, st) := by
  intro ms
  induction ms with
  | nil => intro best; rfl
  | cons m rest ih =>
    intro best
    by_cases h : best.evaluation < negEvalAt R st.cur m
    · simp only [bestLoop, selLoop, EngineSt.push_cur, EngineSt.pop_push]
      rw [if_pos (by simpa [negEvalAt] using h), if_pos h]
      exact ih _
    · simp only [bestLoop, selLoop, EngineSt.push_cur, EngineSt.pop_push]
      rw [if_neg (by simpa [negEvalAt] using h), if_neg h]
      exact ih _

theorem selLoop_spec (f : MoveV → Rat) :
    ∀ (rest : List MoveV) (b : MoveV),
      selLoop f { move := b.san, evaluation := f b } rest =
        { move := (specSelect f b rest).san, evaluation := f (specSelect f b rest) } := by
  intro rest
  induction rest with
  | nil => intro b; rfl
  | cons m t ih =>
    intro b
    simp only [selLoop, specSelect]
    split
    · exact ih m
    · exact ih b

/-- C6: on a position with at least one legal move, `getBestMove` returns
the candidate maximizing the negated material evaluation of the position
after the candidate (one-ply negamax), ties resolved to the first such
candidate in enumeration order, and the engine's board state is unchanged
on return. -/
theorem getBestMove_one_ply (R : Rules) (st : EngineSt R)
    (h : R.moves st.cur ≠ []) :
    ∃ m, m ∈ R.moves st.cur ∧
      (getBestMove R st).1 = { move := m.san, evaluation := negEvalAt R st.cur m } ∧
      (∀ m' ∈ R.moves st.cur, negEvalAt R st.cur m' ≤ negEvalAt R st.cur m) ∧
      (R.moves st.cur).find?
        (fun m' => decide (negEvalAt R st.cur m ≤ negEvalAt R st.cur m')) = some m ∧
      (getBestMove R st).2 = st := by
  rcases hms : R.moves st.cur with _ | ⟨m0, rest⟩
  · exact absurd hms h
  · have hbody : getBestMove R st =
        (selLoop (negEvalAt R st.cur) { move := m0.san, evaluation := negEvalAt R st.cur m0 } rest, st) := by
      unfold getBestMove
      rw [hms]
      simp only [EngineSt.push_cur, EngineSt.pop_push]
      exact bestLoop_eq_selLoop R st rest _
    refine ⟨specSelect (negEvalAt R st.cur) m0 rest, ?_, ?_, ?_, ?_, ?_⟩
    · exact specSelect_mem _ rest m0
    · rw [hbody]; exact selLoop_spec _ rest m0
    · intro m' hm'
      exact specSelect_max _ rest m0 m' hm'
    · exact specSelect_first _ rest m0
    · rw [hbody]

def c2St0 : EngineSt c2Rules := ⟨c2pos0, []⟩

/-- Witness for C6 at the concrete `c2Rules` position, which has eleven
legal moves. -/
theorem getBestMove_one_ply_witness :
    c2Rules.moves c2St0.cur ≠ [] ∧
    (∃ m, m ∈ c2Rules.moves c2St0.cur ∧
      (getBestMove c2Rules c2St0).1 =
        { move := m.san, evaluation := negEvalAt c2Rules c2St0.cur m } ∧
      (∀ m' ∈ c2Rules.moves c2St0.cur,
        negEvalAt c2Rules c2St0.cur m' ≤ negEvalAt c2Rules c2St0.cur m) ∧
      (c2Rules.moves c2St0.cur).find?
        (fun m' => decide (negEvalAt c2Rules c2St0.cur m ≤ negEvalAt c2Rules c2St0.cur m')) =
          some m ∧
      (getBestMove c2Rules c2St0).2 = c2St0) :=
  ⟨by decide, getBestMove_one_ply c2Rules c2St0 (by decide)⟩

/-! ### The fork-detection direction (claim C2) -/

/-- Defined from the claim's words: the number of pieces of the opponent
of `mover` standing on squares attacked by `mover`. -/
def countOppAttacked (R : Rules) (p : R.Pos) (mover : Char) : Nat :=
  let board := R.boardGrid p
  (List.range 8).foldl (fun acc row =>
    (List.range 8).foldl (fun acc col =>
      match gridGet board row col with
      | some piece =>
        if piece.color = otherColor mover && R.isAttacked p (squareName row col) mover then
          acc + 1
        else acc
      | none => acc) acc) 0

/-- C2 evidence: in the `c2pos0` position (White, the user, to move:
Ka1, Nd3 against Ke6, Bg6) the candidate `Nf4+` attacks both black
pieces, so the claim's count of attacked opponent pieces is 2 and a fork
should be reported — but `findTactics` reports nothing, because after the
hypothetical move the turn has flipped and `countAttackedPieces` counts
the *mover's own* pieces attacked by the opponent (0 here, at most 1 for
every candidate). -/
theorem findTactics_fork_counts_wrong_side :
    (findTactics c2Rules c2St0).1 = noTactic ∧
    ({ san := "Nf4+", flags := "n" } : MoveV) ∈ c2Rules.moves c2pos0 ∧
    countOppAttacked c2Rules (c2Rules.apply c2pos0 { san := "Nf4+", flags := "n" }) 'w' = 2 ∧
    countAttackedPieces c2Rules (c2Rules.apply c2pos0 { san := "Nf4+", flags := "n" }) = 0 := by
  refine ⟨?_, ?_, ?_, ?_⟩ <;> decide

/-! ### Parser claims (C7, C8) and user-color attribution (C10) -/

/-- C7: the moves extracted from `1. e4 e5 2. Nf3 Nc6 3. Bb5 *` are
exactly `e4 e5 Nf3 Nc6 Bb5`: the trailing result token and the move-number
prefixes are stripped, the rest is split on whitespace, and the tokens
containing an alphanumeric character are kept in order. -/
theorem parsePgn_roundtrip_moves :
    (parsePgn "1. e4 e5 2. Nf3 Nc6 3. Bb5 *").moves.map ChessMove.move =
      ["e4", "e5", "Nf3", "Nc6", "Bb5"] := by
  decide

/-- Defined from the claim's words: the `Date` header is present and
splits on `.` into exactly three parts, each parsed by `parseInt` without
`NaN`. -/
def dateHeaderParses (pgn : String) : Bool :=
  match (parsePgn pgn).date with
  | none => false
  | some d =>
    match (splitOnDots d.toList).map List.asString with
    | [p0, p1, p2] =>
      (parseIntJS p0).isSome && (parseIntJS p1).isSome && (parseIntJS p2).isSome
    | _ => false

/-- C8: `extractBasicInfo` (a total function here — the source never
throws) yields a defined date exactly when the `Date` header splits on `.`
into three integer-parsing parts; `[Date "2024.03.15"]` yields the
constructor arguments of `new Date(2024, 2, 15)` (March 15, 2024), and
`[Date "????.??.??"]` yields an undefined date. -/
theorem extractBasicInfo_date_spec :
    (∀ pgn : String, (extractBasicInfo pgn).date.isSome = dateHeaderParses pgn) ∧
    (extractBasicInfo "[Date \"2024.03.15\"]").date = some (2024, 2, 15) ∧
    (extractBasicInfo "[Date \"????.??.??\"]").date = none := by
  refine ⟨?_, by decide, by decide⟩
  intro pgn
  show (match (parsePgn pgn).date with
    | some d => parseDateParts d
    | none => none).isSome = dateHeaderParses pgn
  unfold dateHeaderParses
  cases (parsePgn pgn).date with
  | none => rfl
  | some d =>
    dsimp only
    unfold parseDateParts
    simp only [String.toList]
    rcases hs : List.map List.asString (splitOnDots d.data) with _ | ⟨p0, _ | ⟨p1, _ | ⟨p2, _ | t⟩⟩⟩ <;>
      simp only [hs] <;> try rfl
    rcases h0 : parseIntJS p0 with _ | y <;> rcases h1 : parseIntJS p1 with _ | mo <;>
      rcases h2 : parseIntJS p2 with _ | dd <;> simp [h0, h1, h2]

/-- C10: when both the White and the Black header case-insensitively equal
the username, `determineUserColor` answers `"white"` — the White header is
tested first. -/
theorem determineUserColor_both_match (g : ChessGame) (username w b : String)
    (hw : g.white = some w) (hb : g.black = some b)
    (hwl : jsToLowerStr w = jsToLowerStr username)
    (hbl : jsToLowerStr b = jsToLowerStr username) :
    determineUserColor g username = "white" := by
  simp [determineUserColor, optEqLower, hw, hwl]

/-- Witness for C10 with the headers `Alice` and `ALICE` and the username
`aLiCe`. -/
theorem determineUserColor_both_match_witness :
    determineUserColor
      { white := some "Alice", black := some "ALICE", moves := [], rawPgn := "" }
      "aLiCe" = "white" :=
  determineUserColor_both_match _ "aLiCe" "Alice" "ALICE" rfl rfl (by decide) (by decide)

/-! ### Orchestrator totality (claim C1) -/

def simpleSt0 : EngineSt simpleRules := ⟨(0 : Fin 2), []⟩

instance : DecidableEq simpleRules.Pos :=
  instDecidableEqFin 2

instance : Fintype simpleRules.Pos :=
  (inferInstance : Fintype (Fin 2))

/-- C1: `analyzePgn` always returns a bundle carrying all four pipeline
results (it is a total function of its inputs — internal failures are
values, not exceptions), and whenever the AI path contributes no result
(no API key, timeout, or any AI failure), the bundle for the empty PGN has
game outcome `"Unknown"`. -/
theorem analyzePgn_total_empty_unknown (R : Rules) (eng : EngineSt R)
    (ai : Option AnalysisBundle) (pgn username : String) :
    (∃ g t o f, analyzePgn R eng ai pgn username = ⟨g, t, o, f⟩) ∧
    (ai = none → (analyzePgn R eng ai "" username).game.outcome = "Unknown") := by
  constructor
  · exact ⟨_, _, _, _, rfl⟩
  · intro h
    subst h
    rfl

/-- Witness for C1: the empty PGN with no AI result, on the concrete
two-state engine. -/
theorem analyzePgn_total_empty_unknown_witness :
    (∃ g t o f, analyzePgn simpleRules simpleSt0 none "" "someuser" = ⟨g, t, o, f⟩) ∧
    (analyzePgn simpleRules simpleSt0 none "" "someuser").game.outcome = "Unknown" :=
  ⟨(analyzePgn_total_empty_unknown simpleRules simpleSt0 none "" "someuser").1,
   (analyzePgn_total_empty_unknown simpleRules simpleSt0 none "" "someuser").2 rfl⟩

/-! ### Replay synchronization of `runGameAnalysis` (claim C3) -/

/-- One replay step as the claim reads it: apply the move when it applies,
keep the position otherwise. -/
def stepPos (R : Rules) (p : R.Pos) (m : ChessMove) : R.Pos :=
  (R.applySan p m.move).getD p

/-- Defined from the claim's words: the board reached when the replay
visits every move in order, applying each move that applies. -/
def replayAllSkip (R : Rules) (p : R.Pos) (ms : List ChessMove) : R.Pos :=
  ms.foldl (stepPos R) p

/-- Every user move along the traversal applies successfully (opponent
moves may fail and are skipped, as the code's `else` branch does). -/
def userMovesOk (R : Rules) (userColor : String) : R.Pos → List ChessMove → Bool
  | _, [] => true
  | p, m :: t =>
    if isUserMoveAt R p userColor then
      match R.applySan p m.move with
      | some p' => userMovesOk R userColor p' t
      | none => false
    else userMovesOk R userColor (stepPos R p m) t

theorem gameLoop_cur (R : Rules) (userColor : String) :
    ∀ (ms : List ChessMove) (acc : GameAcc R),
      userMovesOk R userColor acc.st.cur ms = true →
      ((gameLoop R userColor ms acc).st).cur = List.foldl (stepPos R) acc.st.cur ms := by
  intro ms
  induction ms with
  | nil => intro acc _; rfl
  | cons m rest ih =>
    intro acc h
    rw [userMovesOk] at h
    by_cases hu : isUserMoveAt R acc.st.cur userColor = true
    · rw [if_pos hu] at h
      rcases hsan : R.applySan acc.st.cur m.move with _ | p'
      · rw [hsan] at h; exact absurd h (by simp)
      · rw [hsan] at h
        have hms : acc.st.moveSan m.move = some ⟨p', acc.st.cur :: acc.st.hist⟩ := by
          simp [EngineSt.moveSan, hsan]
        simp only [gameLoop, hu, if_true, hms]
        rw [List.foldl_cons]
        have hstep : stepPos R acc.st.cur m = p' := by simp [stepPos, hsan]
        rw [hstep]
        exact ih _ h
    · rw [if_neg hu] at h
      simp only [gameLoop, hu]
      rcases hsan : R.applySan acc.st.cur m.move with _ | p'
      · have hms : acc.st.moveSan m.move = none := by simp [EngineSt.moveSan, hsan]
        simp only [hms]
        have hstep : stepPos R acc.st.cur m = acc.st.cur := by simp [stepPos, hsan]
        rw [List.foldl_cons, hstep]
        have h' : userMovesOk R userColor acc.st.cur rest = true := by
          rw [show stepPos R acc.st.cur m = acc.st.cur from hstep] at h
          exact h
        exact ih { acc with i := acc.i + 1 } h'
      · have hms : acc.st.moveSan m.move = some ⟨p', acc.st.cur :: acc.st.hist⟩ := by
          simp [EngineSt.moveSan, hsan]
        simp only [hms]
        have hstep : stepPos R acc.st.cur m = p' := by simp [stepPos, hsan]
        rw [List.foldl_cons, hstep]
        have h' : userMovesOk R userColor p' rest = true := by
          rw [hstep] at h
          exact h
        exact ih { acc with st := ⟨p', acc.st.cur :: acc.st.hist⟩, i := acc.i + 1 } h'

/-- C3 (amended): the per-move handler of `runGameAnalysis` can only be
entered when applying the user's move itself fails (every other per-move
step catches internally), and then its replayed `chess.move` fails again
and the outer handler stops the replay.  When every user move applies, the
traversal visits all moves — applying each user move once and skipping
only inapplicable opponent moves — so the final board is the full replay
fold and never desynchronizes from the move index. -/
theorem runGameAnalysis_board_sync (R : Rules) (chess eng : EngineSt R)
    (g : ChessGame) (userColor : String)
    (h : userMovesOk R userColor R.initial g.moves = true) :
    ((runGameAnalysis R chess eng g userColor).2.1).cur =
      replayAllSkip R R.initial g.moves :=
  gameLoop_cur R userColor g.moves _ h

/-- Witness for the amended C3: a one-move game whose user move applies. -/
theorem runGameAnalysis_board_sync_witness :
    userMovesOk simpleRules "white" simpleRules.initial [{ move := "a3" }] = true ∧
    ((runGameAnalysis simpleRules simpleSt0 simpleSt0
        { moves := [{ move := "a3" }], rawPgn := "" } "white").2.1).cur =
      replayAllSkip simpleRules simpleRules.initial [{ move := "a3" }] :=
  ⟨by decide,
   runGameAnalysis_board_sync simpleRules simpleSt0 simpleSt0
     { moves := [{ move := "a3" }], rawPgn := "" } "white" (by decide)⟩

/-- C3 counterexample: in the two-move game `zz, a3` (the user plays
white, `zz` does not apply, `a3` would apply) the code's replay stops at
the failed first move — the handler's replayed `chess.move` fails again
and the outer handler ends the loop — so the final board is still the
initial position, not the board of the claim's continued replay, which
would have applied the remaining move `a3`. -/
theorem runGameAnalysis_stops_on_failed_user_move :
    ((runGameAnalysis simpleRules simpleSt0 simpleSt0
        { moves := [{ move := "zz" }, { move := "a3" }], rawPgn := "" } "white").2.1).cur ≠
      replayAllSkip simpleRules simpleRules.initial
        [{ move := "zz" }, { move := "a3" }] := by
  decide

/-! ### Fundamentals scoring (claim C9) -/

/-- Every move along the replay applies successfully. -/
def replayOk (R : Rules) : R.Pos → List ChessMove → Bool
  | _, [] => true
  | p, m :: t =>
    match R.applySan p m.move with
    | some p' => replayOk R p' t
    | none => false

/-- The position after the first `j` moves of the replay from `p`. -/
def posFrom (R : Rules) (p : R.Pos) (ms : List ChessMove) (j : Nat) : R.Pos :=
  (ms.take j).foldl (stepPos R) p

theorem posFrom_zero (R : Rules) (p : R.Pos) (ms : List ChessMove) :
    posFrom R p ms 0 = p := rfl

theorem posFrom_cons_succ (R : Rules) (p : R.Pos) (m : ChessMove)
    (t : List ChessMove) (j : Nat) :
    posFrom R p (m :: t) (j + 1) = posFrom R (stepPos R p m) t j := by
  simp [posFrom]

theorem posFrom_cons_one (R : Rules) (p : R.Pos) (m : ChessMove) (t : List ChessMove) :
    posFrom R p (m :: t) 1 = stepPos R p m := by
  rw [posFrom_cons_succ]; rfl

/-- The running sum of one fundamentals heuristic, mirroring the loop's
qualifying condition (`i < 40 && isUserMove`, evaluated before the move;
the score is taken on the position after the move). -/
def fundSpecAux (R : Rules) (userColor : String) (score : R.Pos → String → Rat) :
    R.Pos → Nat → List ChessMove → Rat
  | _, _, [] => 0
  | p, i, m :: t =>
    let p' := stepPos R p m
    (if decide (i < 40) && isUserMoveAt R p userColor then score p' userColor else 0) +
      fundSpecAux R userColor score p' (i + 1) t

theorem fundLoop_sums (R : Rules) (userColor : String) :
    ∀ (ms : List ChessMove) (acc : FundAcc R),
      replayOk R acc.st.cur ms = true →
      (fundLoop R userColor ms acc).dev =
        acc.dev + fundSpecAux R userColor (evaluatePieceDevelopment R) acc.st.cur acc.i ms ∧
      (fundLoop R userColor ms acc).center =
        acc.center + fundSpecAux R userColor (evaluateCenterControl R) acc.st.cur acc.i ms ∧
      (fundLoop R userColor ms acc).king =
        acc.king + fundSpecAux R userColor (evaluateKingSafety R) acc.st.cur acc.i ms ∧
      (fundLoop R userColor ms acc).pawn =
        acc.pawn + fundSpecAux R userColor (evaluatePawnStructure R) acc.st.cur acc.i ms := by
  intro ms
  induction ms with
  | nil =>
    intro acc _
    refine ⟨?_, ?_, ?_, ?_⟩ <;> simp [fundLoop, fundSpecAux]
  | cons m rest ih =>
    intro acc h
    rw [replayOk] at h
    rcases hsan : R.applySan acc.st.cur m.move with _ | p'
    · rw [hsan] at h; exact absurd h (by simp)
    · rw [hsan] at h
      replace h : replayOk R p' rest = true := h
      have hms : acc.st.moveSan m.move = some ⟨p', acc.st.cur :: acc.st.hist⟩ := by
        simp [EngineSt.moveSan, hsan]
      have hstep : stepPos R acc.st.cur m = p' := by simp [stepPos, hsan]
      by_cases hq : (decide (acc.i < 40) && isUserMoveAt R acc.st.cur userColor) = true
      · have hbody :
            fundLoop R userColor (m :: rest) acc =
              fundLoop R userColor rest
                { st := ⟨p', acc.st.cur :: acc.st.hist⟩, i := acc.i + 1,
                  dev := acc.dev + evaluatePieceDevelopment R p' userColor,
                  center := acc.center + evaluateCenterControl R p' userColor,
                  king := acc.king + evaluateKingSafety R p' userColor,
                  pawn := acc.pawn + evaluatePawnStructure R p' userColor } := by
          simp only [fundLoop, hms, hq, if_true]
        have hspec : ∀ score : R.Pos → String → Rat,
            fundSpecAux R userColor score acc.st.cur acc.i (m :: rest) =
              score p' userColor + fundSpecAux R userColor score p' (acc.i + 1) rest := by
          intro score
          simp only [fundSpecAux, hstep, hq, if_true]
        obtain ⟨h1, h2, h3, h4⟩ :=
          ih { st := ⟨p', acc.st.cur :: acc.st.hist⟩, i := acc.i + 1,
               dev := acc.dev + evaluatePieceDevelopment R p' userColor,
               center := acc.center + evaluateCenterControl R p' userColor,
               king := acc.king + evaluateKingSafety R p' userColor,
               pawn := acc.pawn + evaluatePawnStructure R p' userColor } h
        rw [hbody]
        refine ⟨?_, ?_, ?_, ?_⟩ <;>
          simp only [h1, h2, h3, h4, hspec] <;> ring
      · have hbody :
            fundLoop R userColor (m :: rest) acc =
              fundLoop R userColor rest
                { acc with st := ⟨p', acc.st.cur :: acc.st.hist⟩, i := acc.i + 1 } := by
          simp only [fundLoop, hms]
          rw [if_neg hq]
        have hspec : ∀ score : R.Pos → String → Rat,
            fundSpecAux R userColor score acc.st.cur acc.i (m :: rest) =
              fundSpecAux R userColor score p' (acc.i + 1) rest := by
          intro score
          simp only [fundSpecAux, hstep]
          rw [if_neg hq, zero_add]
        obtain ⟨h1, h2, h3, h4⟩ :=
          ih { acc with st := ⟨p', acc.st.cur :: acc.st.hist⟩, i := acc.i + 1 } h
        rw [hbody]
        refine ⟨?_, ?_, ?_, ?_⟩ <;> simp only [h1, h2, h3, h4, hspec]

/-- The map-sum form of `fundSpecAux`, indexed by the half-move number. -/
theorem fundSpecAux_eq_sum (R : Rules) (userColor : String)
    (score : R.Pos → String → Rat) :
    ∀ (ms : List ChessMove) (p : R.Pos) (i : Nat),
      fundSpecAux R userColor score p i ms =
        ((List.range ms.length).map (fun j =>
          if i + j < 40 ∧ isUserMoveAt R (posFrom R p ms j) userColor = true then
            score (posFrom R p ms (j + 1)) userColor
          else 0)).sum := by
  intro ms
  induction ms with
  | nil => intro p i; simp [fundSpecAux]
  | cons m rest ih =>
    intro p i
    rw [show (m :: rest).length = rest.length + 1 from rfl, List.range_succ_eq_map]
    simp only [List.map_cons, List.map_map, List.sum_cons]
    rw [show fundSpecAux R userColor score p i (m :: rest) =
      (if decide (i < 40) && isUserMoveAt R p userColor then
        score (stepPos R p m) userColor else 0) +
        fundSpecAux R userColor score (stepPos R p m) (i + 1) rest from rfl]
    congr 1
    · rw [posFrom_zero, posFrom_cons_one]
      by_cases hq : (decide (i < 40) && isUserMoveAt R p userColor) = true
      · have hc : i + 0 < 40 ∧ isUserMoveAt R p userColor = true := by
          have := hq
          simp only [Bool.and_eq_true, decide_eq_true_iff] at this
          exact ⟨by omega, this.2⟩
        rw [if_pos hq, if_pos hc]
      · have hc : ¬ (i + 0 < 40 ∧ isUserMoveAt R p userColor = true) := by
          intro hc
          exact hq (by
            simp only [Bool.and_eq_true, decide_eq_true_iff]
            exact ⟨by omega, hc.2⟩)
        rw [if_neg hq, if_neg hc]
    · rw [ih (stepPos R p m) (i + 1)]
      refine congrArg List.sum (List.map_congr_left ?_)
      intro j _
      simp only [Function.comp, Nat.succ_eq_add_one, posFrom_cons_succ]
      rw [show i + (j + 1) = i + 1 + j from by omega]

theorem clamp100_range (x : Rat) : 0 ≤ clamp100 x ∧ clamp100 x ≤ 100 := by
  unfold clamp100
  constructor
  · exact le_min (by norm_num) (le_max_left 0 x)
  · exact min_le_left 100 _

/-- The per-heuristic sum of claim C9, from the start position with
zero-based half-move indices. -/
def fundSpecSum (R : Rules) (userColor : String) (score : R.Pos → String → Rat)
    (ms : List ChessMove) : Rat :=
  ((List.range ms.length).map (fun j =>
    if j < 40 ∧ isUserMoveAt R (posFrom R R.initial ms j) userColor = true then
      score (posFrom R R.initial ms (j + 1)) userColor
    else 0)).sum

/-- C9: each fundamentals score is clamped into [0,100] for every input
(even when the replay aborts on an inapplicable move), and on a fully
replayable game each score is the clamp of the heuristic summed exactly
over the user-turn moves among the first 40 half-moves (scored on the
position after the move). -/
theorem runFundamentalsAnalysis_scores (R : Rules) (chess : EngineSt R)
    (g : ChessGame) (userColor : String) :
    (0 ≤ (runFundamentalsAnalysis R chess g userColor).1.pieceDevelopment ∧
      (runFundamentalsAnalysis R chess g userColor).1.pieceDevelopment ≤ 100 ∧
      0 ≤ (runFundamentalsAnalysis R chess g userColor).1.centerControl ∧
      (runFundamentalsAnalysis R chess g userColor).1.centerControl ≤ 100 ∧
      0 ≤ (runFundamentalsAnalysis R chess g userColor).1.kingSafety ∧
      (runFundamentalsAnalysis R chess g userColor).1.kingSafety ≤ 100 ∧
      0 ≤ (runFundamentalsAnalysis R chess g userColor).1.pawnStructure ∧
      (runFundamentalsAnalysis R chess g userColor).1.pawnStructure ≤ 100) ∧
    (replayOk R R.initial g.moves = true →
      (runFundamentalsAnalysis R chess g userColor).1.pieceDevelopment =
        clamp100 (fundSpecSum R userColor (evaluatePieceDevelopment R) g.moves) ∧
      (runFundamentalsAnalysis R chess g userColor).1.centerControl =
        clamp100 (fundSpecSum R userColor (evaluateCenterControl R) g.moves) ∧
      (runFundamentalsAnalysis R chess g userColor).1.kingSafety =
        clamp100 (fundSpecSum R userColor (evaluateKingSafety R) g.moves) ∧
      (runFundamentalsAnalysis R chess g userColor).1.pawnStructure =
        clamp100 (fundSpecSum R userColor (evaluatePawnStructure R) g.moves)) := by
  constructor
  · exact ⟨(clamp100_range _).1, (clamp100_range _).2, (clamp100_range _).1,
      (clamp100_range _).2, (clamp100_range _).1, (clamp100_range _).2,
      (clamp100_range _).1, (clamp100_range _).2⟩
  · intro hr
    obtain ⟨h1, h2, h3, h4⟩ :=
      fundLoop_sums R userColor g.moves
        { st := chess.reset, i := 0, dev := 0, center := 0, king := 0, pawn := 0 } hr
    have hsum : ∀ score : R.Pos → String → Rat,
        fundSpecAux R userColor score R.initial 0 g.moves =
          fundSpecSum R userColor score g.moves := by
      intro score
      rw [fundSpecAux_eq_sum]
      unfold fundSpecSum
      refine congrArg List.sum (List.map_congr_left ?_)
      intro j _
      simp only [Nat.zero_add]
    have h1' : (fundLoop R userColor g.moves
        { st := chess.reset, i := 0, dev := 0, center := 0, king := 0, pawn := 0 }).dev =
        0 + fundSpecAux R userColor (evaluatePieceDevelopment R) R.initial 0 g.moves := h1
    have h2' : (fundLoop R userColor g.moves
        { st := chess.reset, i := 0, dev := 0, center := 0, king := 0, pawn := 0 }).center =
        0 + fundSpecAux R userColor (evaluateCenterControl R) R.initial 0 g.moves := h2
    have h3' : (fundLoop R userColor g.moves
        { st := chess.reset, i := 0, dev := 0, center := 0, king := 0, pawn := 0 }).king =
        0 + fundSpecAux R userColor (evaluateKingSafety R) R.initial 0 g.moves := h3
    have h4' : (fundLoop R userColor g.moves
        { st := chess.reset, i := 0, dev := 0, center := 0, king := 0, pawn := 0 }).pawn =
        0 + fundSpecAux R userColor (evaluatePawnStructure R) R.initial 0 g.moves := h4
    refine ⟨?_, ?_, ?_, ?_⟩
    · show clamp100 (fundLoop R userColor g.moves
        { st := chess.reset, i := 0, dev := 0, center := 0, king := 0, pawn := 0 }).dev = _
      rw [h1', zero_add, hsum]
    · show clamp100 (fundLoop R userColor g.moves
        { st := chess.reset, i := 0, dev := 0, center := 0, king := 0, pawn := 0 }).center = _
      rw [h2', zero_add, hsum]
    · show clamp100 (fundLoop R userColor g.moves
        { st := chess.reset, i := 0, dev := 0, center := 0, king := 0, pawn := 0 }).king = _
      rw [h3', zero_add, hsum]
    · show clamp100 (fundLoop R userColor g.moves
        { st := chess.reset, i := 0, dev := 0, center := 0, king := 0, pawn := 0 }).pawn = _
      rw [h4', zero_add, hsum]

/-- Witness for C9: the one-move game `a3` on the two-state engine, whose
replay succeeds. -/
theorem runFundamentalsAnalysis_scores_witness :
    ((0 ≤ (runFundamentalsAnalysis simpleRules simpleSt0
        { moves := [{ move := "a3" }], rawPgn := "" } "white").1.pieceDevelopment ∧
      (runFundamentalsAnalysis simpleRules simpleSt0
        { moves := [{ move := "a3" }], rawPgn := "" } "white").1.pieceDevelopment ≤ 100 ∧
      0 ≤ (runFundamentalsAnalysis simpleRules simpleSt0
        { moves := [{ move := "a3" }], rawPgn := "" } "white").1.centerControl ∧
      (runFundamentalsAnalysis simpleRules simpleSt0
        { moves := [{ move := "a3" }], rawPgn := "" } "white").1.centerControl ≤ 100 ∧
      0 ≤ (runFundamentalsAnalysis simpleRules simpleSt0
        { moves := [{ move := "a3" }], rawPgn := "" } "white").1.kingSafety ∧
      (runFundamentalsAnalysis simpleRules simpleSt0
        { moves := [{ move := "a3" }], rawPgn := "" } "white").1.kingSafety ≤ 100 ∧
      0 ≤ (runFundamentalsAnalysis simpleRules simpleSt0
        { moves := [{ move := "a3" }], rawPgn := "" } "white").1.pawnStructure ∧
      (runFundamentalsAnalysis simpleRules simpleSt0
        { moves := [{ move := "a3" }], rawPgn := "" } "white").1.pawnStructure ≤ 100)) ∧
    ((runFundamentalsAnalysis simpleRules simpleSt0
        { moves := [{ move := "a3" }], rawPgn := "" } "white").1.pieceDevelopment =
      clamp100 (fundSpecSum simpleRules "white" (evaluatePieceDevelopment simpleRules)
        [{ move := "a3" }]) ∧
      (runFundamentalsAnalysis simpleRules simpleSt0
        { moves := [{ move := "a3" }], rawPgn := "" } "white").1.centerControl =
      clamp100 (fundSpecSum simpleRules "white" (evaluateCenterControl simpleRules)
        [{ move := "a3" }]) ∧
      (runFundamentalsAnalysis simpleRules simpleSt0
        { moves := [{ move := "a3" }], rawPgn := "" } "white").1.kingSafety =
      clamp100 (fundSpecSum simpleRules "white" (evaluateKingSafety simpleRules)
        [{ move := "a3" }]) ∧
      (runFundamentalsAnalysis simpleRules simpleSt0
        { moves := [{ move := "a3" }], rawPgn := "" } "white").1.pawnStructure =
      clamp100 (fundSpecSum simpleRules "white" (evaluatePawnStructure simpleRules)
        [{ move := "a3" }])) :=
  ⟨(runFundamentalsAnalysis_scores simpleRules simpleSt0
      { moves := [{ move := "a3" }], rawPgn := "" } "white").1,
   (runFundamentalsAnalysis_scores simpleRules simpleSt0
      { moves := [{ move := "a3" }], rawPgn := "" } "white").2 (by decide)⟩

/-! ### Per-move classification of `runGameAnalysis` (claim C4) -/

/-- The rules-engine contract used by `runGameAnalysis`: exporting a
position's FEN and loading it back restores the position (chess.js's
`fen`/`load` round-trip, which the pipeline uses to hand positions to the
mock engine). -/
def LoadFen (R : Rules) : Prop :=
  ∀ p : R.Pos, R.load (R.fen p) = some p

theorem loadFen_of {R : Rules} (hl : LoadFen R) (e : EngineSt R) (p : R.Pos) :
    e.loadFen (R.fen p) = ⟨p, []⟩ := by
  simp [EngineSt.loadFen, hl p]

/-- The value `getBestMove` computes, as a pure function of the engine's
current position. -/
def pureBest (R : Rules) (p : R.Pos) : BestMove :=
  match R.moves p with
  | [] => { move := "", evaluation := 0 }
  | m :: rest =>
    { move := (specSelect (negEvalAt R p) m rest).san,
      evaluation := negEvalAt R p (specSelect (negEvalAt R p) m rest) }

theorem getBestMove_pure (R : Rules) (st : EngineSt R) :
    getBestMove R st = (pureBest R st.cur, st) := by
  rcases hms : R.moves st.cur with _ | ⟨m0, rest⟩
  · unfold getBestMove pureBest
    rw [hms]
  · unfold getBestMove pureBest
    rw [hms]
    have hsel : bestLoop R st { move := m0.san, evaluation := negEvalAt R st.cur m0 } rest =
        ({ move := (specSelect (negEvalAt R st.cur) m0 rest).san,
           evaluation := negEvalAt R st.cur (specSelect (negEvalAt R st.cur) m0 rest) }, st) := by
      rw [bestLoop_eq_selLoop, selLoop_spec]
    exact hsel

/-- The evaluation difference of claim C4: best-move evaluation queried on
the position before the move, material evaluation on the position after
the played move. -/
def evalDiffAfter (R : Rules) (p q : R.Pos) : Rat :=
  |(pureBest R p).evaluation - evaluateMaterial R q|

/-- The counts claim C4 attributes to a replay segment. -/
structure GameCounts where
  tot : Nat
  good : Nat
  bl : Nat
  mi : Nat
  ina : Nat
  exc : Nat
deriving DecidableEq, Repr

/-- The key-moment entries recording an excellent move. -/
def kmExcP (k : KeyMoment) : Bool :=
  k.type == "excellent"

/-- The five-place update tuple built by the user-move branch of
`gameLoop` (good, blunders, mistakes, inaccuracies, quality), mirroring
the threshold chain of the source on
`evalDiff = |bestMove.evaluation − afterMoveEvaluation|`. -/
def classifyUpd (d : Rat) (good bl mi ina : Nat) : Nat × Nat × Nat × Nat × String :=
  if d > 2 then (good, bl + 1, mi, ina, "blunder")
  else if d > 1 then (good, bl, mi + 1, ina, "mistake")
  else if d > (1 : Rat) / 2 then (good, bl, mi, ina + 1, "inaccuracy")
  else (good + 1, bl, mi, ina, if d < (1 : Rat) / 5 then "excellent" else "good")

/-- The classification counts over a replay segment: per user-turn move,
one total, the `classifyUpd` increment of each counter, and one excellent
key moment exactly when the quality is excellent. -/
def gameSpecAux (R : Rules) (userColor : String) : R.Pos → List ChessMove → GameCounts
  | _, [] => ⟨0, 0, 0, 0, 0, 0⟩
  | p, m :: t =>
    let p' := stepPos R p m
    let c := gameSpecAux R userColor p' t
    if isUserMoveAt R p userColor then
      let u := classifyUpd (evalDiffAfter R p p') 0 0 0 0
      { tot := c.tot + 1, good := c.good + u.1, bl := c.bl + u.2.1,
        mi := c.mi + u.2.2.1, ina := c.ina + u.2.2.2.1,
        exc := c.exc + (if u.2.2.2.2 = "excellent" then 1 else 0) }
    else c

theorem classifyUpd_shift (d : Rat) (g b mi ina : Nat) :
    (classifyUpd d g b mi ina).1 = g + (classifyUpd d 0 0 0 0).1 ∧
    (classifyUpd d g b mi ina).2.1 = b + (classifyUpd d 0 0 0 0).2.1 ∧
    (classifyUpd d g b mi ina).2.2.1 = mi + (classifyUpd d 0 0 0 0).2.2.1 ∧
    (classifyUpd d g b mi ina).2.2.2.1 = ina + (classifyUpd d 0 0 0 0).2.2.2.1 ∧
    (classifyUpd d g b mi ina).2.2.2.2 = (classifyUpd d 0 0 0 0).2.2.2.2 := by
  unfold classifyUpd
  split_ifs <;> simp

/-- How one key-moment push changes the count of excellent entries. -/
theorem countP_km_step (km : List KeyMoment) (q : String) (mn : Nat)
    (posn desc : String) :
    (if (q = "blunder" || q = "excellent") = true then
       km ++ [{ moveNumber := mn, position := posn, type := q, description := desc }]
     else km).countP kmExcP = km.countP kmExcP + (if q = "excellent" then 1 else 0) := by
  rcases eq_or_ne q "excellent" with he | he
  · subst he
    rw [if_pos (by simp), if_pos rfl]
    simp [kmExcP, List.countP_append, List.countP_cons]
  · rcases eq_or_ne q "blunder" with hb | hb
    · subst hb
      rw [if_pos (by simp), if_neg he]
      simp [kmExcP, List.countP_append, List.countP_cons]
    · rw [if_neg (by simp [hb, he]), if_neg he, Nat.add_zero]

/-- The user-move step of `gameLoop`, with the engine interactions
resolved through the FEN round-trip. -/
theorem gameLoop_cons_user (R : Rules) (userColor : String) (hl : LoadFen R)
    (acc : GameAcc R) (m : ChessMove) (rest : List ChessMove) (p' : R.Pos)
    (hu : isUserMoveAt R acc.st.cur userColor = true)
    (hsan : R.applySan acc.st.cur m.move = some p') :
    gameLoop R userColor (m :: rest) acc =
      gameLoop R userColor rest
        { st := ⟨p', acc.st.cur :: acc.st.hist⟩, eng := ⟨p', []⟩, i := acc.i + 1,
          totalMoves := acc.totalMoves + 1,
          goodMoves := (classifyUpd (evalDiffAfter R acc.st.cur p')
            acc.goodMoves acc.blunders acc.mistakes acc.inaccuracies).1,
          blunders := (classifyUpd (evalDiffAfter R acc.st.cur p')
            acc.goodMoves acc.blunders acc.mistakes acc.inaccuracies).2.1,
          mistakes := (classifyUpd (evalDiffAfter R acc.st.cur p')
            acc.goodMoves acc.blunders acc.mistakes acc.inaccuracies).2.2.1,
          inaccuracies := (classifyUpd (evalDiffAfter R acc.st.cur p')
            acc.goodMoves acc.blunders acc.mistakes acc.inaccuracies).2.2.2.1,
          keyMoments :=
            (if ((classifyUpd (evalDiffAfter R acc.st.cur p')
                acc.goodMoves acc.blunders acc.mistakes acc.inaccuracies).2.2.2.2 = "blunder" ||
                (classifyUpd (evalDiffAfter R acc.st.cur p')
                acc.goodMoves acc.blunders acc.mistakes acc.inaccuracies).2.2.2.2 = "excellent") = true then
              acc.keyMoments ++
                [{ moveNumber := acc.i / 2 + 1, position := R.fen acc.st.cur,
                   type := (classifyUpd (evalDiffAfter R acc.st.cur p')
                     acc.goodMoves acc.blunders acc.mistakes acc.inaccuracies).2.2.2.2,
                   description :=
                     if (classifyUpd (evalDiffAfter R acc.st.cur p')
                         acc.goodMoves acc.blunders acc.mistakes acc.inaccuracies).2.2.2.2 = "blunder" then
                       (pureBest R acc.st.cur).move ++ " would have been much better."
                     else "Perfect move!" }]
            else acc.keyMoments) } := by
  have hms : acc.st.moveSan m.move = some ⟨p', acc.st.cur :: acc.st.hist⟩ := by
    simp [EngineSt.moveSan, hsan]
  simp only [gameLoop, hu, if_true, hms, loadFen_of hl, getBestMove_pure, classifyUpd,
    evalDiffAfter]

theorem gameLoop_counts (R : Rules) (userColor : String) (hl : LoadFen R) :
    ∀ (ms : List ChessMove) (acc : GameAcc R),
      replayOk R acc.st.cur ms = true →
      (gameLoop R userColor ms acc).totalMoves =
        acc.totalMoves + (gameSpecAux R userColor acc.st.cur ms).tot ∧
      (gameLoop R userColor ms acc).goodMoves =
        acc.goodMoves + (gameSpecAux R userColor acc.st.cur ms).good ∧
      (gameLoop R userColor ms acc).blunders =
        acc.blunders + (gameSpecAux R userColor acc.st.cur ms).bl ∧
      (gameLoop R userColor ms acc).mistakes =
        acc.mistakes + (gameSpecAux R userColor acc.st.cur ms).mi ∧
      (gameLoop R userColor ms acc).inaccuracies =
        acc.inaccuracies + (gameSpecAux R userColor acc.st.cur ms).ina ∧
      ((gameLoop R userColor ms acc).keyMoments).countP kmExcP =
        (acc.keyMoments).countP kmExcP + (gameSpecAux R userColor acc.st.cur ms).exc := by
  intro ms
  induction ms with
  | nil =>
    intro acc _
    refine ⟨?_, ?_, ?_, ?_, ?_, ?_⟩ <;> simp [gameLoop, gameSpecAux]
  | cons m rest ih =>
    intro acc h
    rw [replayOk] at h
    rcases hsan : R.applySan acc.st.cur m.move with _ | p'
    · rw [hsan] at h; exact absurd h (by simp)
    · rw [hsan] at h
      replace h : replayOk R p' rest = true := h
      have hstep : stepPos R acc.st.cur m = p' := by simp [stepPos, hsan]
      have hms : acc.st.moveSan m.move = some ⟨p', acc.st.cur :: acc.st.hist⟩ := by
        simp [EngineSt.moveSan, hsan]
      by_cases hu : isUserMoveAt R acc.st.cur userColor = true
      · have hspecCons : gameSpecAux R userColor acc.st.cur (m :: rest) =
            { tot := (gameSpecAux R userColor p' rest).tot + 1,
              good := (gameSpecAux R userColor p' rest).good +
                (classifyUpd (evalDiffAfter R acc.st.cur p') 0 0 0 0).1,
              bl := (gameSpecAux R userColor p' rest).bl +
                (classifyUpd (evalDiffAfter R acc.st.cur p') 0 0 0 0).2.1,
              mi := (gameSpecAux R userColor p' rest).mi +
                (classifyUpd (evalDiffAfter R acc.st.cur p') 0 0 0 0).2.2.1,
              ina := (gameSpecAux R userColor p' rest).ina +
                (classifyUpd (evalDiffAfter R acc.st.cur p') 0 0 0 0).2.2.2.1,
              exc := (gameSpecAux R userColor p' rest).exc +
                (if (classifyUpd (evalDiffAfter R acc.st.cur p') 0 0 0 0).2.2.2.2 = "excellent"
                 then 1 else 0) } := by
          simp only [gameSpecAux, hstep, hu, if_true]
        rw [gameLoop_cons_user R userColor hl acc m rest p' hu hsan, hspecCons]
        obtain ⟨s1, s2, s3, s4, s5⟩ :=
          classifyUpd_shift (evalDiffAfter R acc.st.cur p') acc.goodMoves acc.blunders
            acc.mistakes acc.inaccuracies
        refine ⟨?_, ?_, ?_, ?_, ?_, ?_⟩
        · refine ((ih _ h).1).trans ?_
          show acc.totalMoves + 1 + (gameSpecAux R userColor p' rest).tot = _
          dsimp only
          omega
        · refine ((ih _ h).2.1).trans ?_
          show (classifyUpd (evalDiffAfter R acc.st.cur p') acc.goodMoves acc.blunders
              acc.mistakes acc.inaccuracies).1 + (gameSpecAux R userColor p' rest).good = _
          dsimp only
          rw [s1]
          omega
        · refine ((ih _ h).2.2.1).trans ?_
          show (classifyUpd (evalDiffAfter R acc.st.cur p') acc.goodMoves acc.blunders
              acc.mistakes acc.inaccuracies).2.1 + (gameSpecAux R userColor p' rest).bl = _
          dsimp only
          rw [s2]
          omega
        · refine ((ih _ h).2.2.2.1).trans ?_
          show (classifyUpd (evalDiffAfter R acc.st.cur p') acc.goodMoves acc.blunders
              acc.mistakes acc.inaccuracies).2.2.1 + (gameSpecAux R userColor p' rest).mi = _
          dsimp only
          rw [s3]
          omega
        · refine ((ih _ h).2.2.2.2.1).trans ?_
          show (classifyUpd (evalDiffAfter R acc.st.cur p') acc.goodMoves acc.blunders
              acc.mistakes acc.inaccuracies).2.2.2.1 + (gameSpecAux R userColor p' rest).ina = _
          dsimp only
          rw [s4]
          omega
        · refine ((ih _ h).2.2.2.2.2).trans ?_
          show (if ((classifyUpd (evalDiffAfter R acc.st.cur p') acc.goodMoves acc.blunders
                acc.mistakes acc.inaccuracies).2.2.2.2 = "blunder" ||
              (classifyUpd (evalDiffAfter R acc.st.cur p') acc.goodMoves acc.blunders
                acc.mistakes acc.inaccuracies).2.2.2.2 = "excellent") = true then
              acc.keyMoments ++
                [{ moveNumber := acc.i / 2 + 1, position := R.fen acc.st.cur,
                   type := (classifyUpd (evalDiffAfter R acc.st.cur p') acc.goodMoves
                     acc.blunders acc.mistakes acc.inaccuracies).2.2.2.2,
                   description := if (classifyUpd (evalDiffAfter R acc.st.cur p') acc.goodMoves
                       acc.blunders acc.mistakes acc.inaccuracies).2.2.2.2 = "blunder" then
                     (pureBest R acc.st.cur).move ++ " would have been much better."
                     else "Perfect move!" }]
            else acc.keyMoments).countP kmExcP + (gameSpecAux R userColor p' rest).exc = _
          rw [countP_km_step, s5]
          dsimp only
          ring
      · have hbody : gameLoop R userColor (m :: rest) acc =
            gameLoop R userColor rest
              { acc with st := ⟨p', acc.st.cur :: acc.st.hist⟩, i := acc.i + 1 } := by
          simp only [gameLoop, hms]
          rw [if_neg hu]
        have hspecCons : gameSpecAux R userColor acc.st.cur (m :: rest) =
            gameSpecAux R userColor p' rest := by
          simp only [gameSpecAux, hstep]
          rw [if_neg hu]
        rw [hbody, hspecCons]
        obtain ⟨i1, i2, i3, i4, i5, i6⟩ :=
          ih { acc with st := ⟨p', acc.st.cur :: acc.st.hist⟩, i := acc.i + 1 } h
        exact ⟨i1, i2, i3, i4, i5, i6⟩

theorem countP_range_succ (pred : Nat → Bool) (n : Nat) :
    (List.range (n + 1)).countP pred =
      (List.range n).countP (fun j => pred (j + 1)) + (if pred 0 = true then 1 else 0) := by
  rw [List.range_succ_eq_map, List.countP_cons, List.countP_map]
  have hc : (pred ∘ Nat.succ) = (fun j => pred (j + 1)) := by
    funext j
    simp [Function.comp, Nat.succ_eq_add_one]
  rw [hc]

theorem classifyUpd0_good (d : Rat) :
    (classifyUpd d 0 0 0 0).1 = if d ≤ (1 : Rat) / 2 then 1 else 0 := by
  unfold classifyUpd
  split_ifs <;> first | rfl | (exfalso; linarith)

theorem classifyUpd0_bl (d : Rat) :
    (classifyUpd d 0 0 0 0).2.1 = if 2 < d then 1 else 0 := by
  unfold classifyUpd
  split_ifs <;> first | rfl | (exfalso; linarith)

theorem classifyUpd0_mi (d : Rat) :
    (classifyUpd d 0 0 0 0).2.2.1 = if d ≤ 2 ∧ 1 < d then 1 else 0 := by
  unfold classifyUpd
  split_ifs <;> first | rfl | (exfalso; push_neg at *; simp_all; try linarith)

theorem classifyUpd0_ina (d : Rat) :
    (classifyUpd d 0 0 0 0).2.2.2.1 = if d ≤ 1 ∧ (1 : Rat) / 2 < d then 1 else 0 := by
  unfold classifyUpd
  split_ifs <;> first | rfl | (exfalso; push_neg at *; simp_all; try linarith)

theorem classifyUpd0_exc (d : Rat) :
    (if (classifyUpd d 0 0 0 0).2.2.2.2 = "excellent" then 1 else 0) =
      if d ≤ (1 : Rat) / 2 ∧ d < (1 : Rat) / 5 then 1 else 0 := by
  unfold classifyUpd
  split_ifs <;> simp_all <;> linarith

theorem gameSpecAux_counts (R : Rules) (userColor : String) :
    ∀ (ms : List ChessMove) (p : R.Pos),
      (gameSpecAux R userColor p ms).tot =
        (List.range ms.length).countP
          (fun j => isUserMoveAt R (posFrom R p ms j) userColor) ∧
      (gameSpecAux R userColor p ms).good =
        (List.range ms.length).countP
          (fun j => isUserMoveAt R (posFrom R p ms j) userColor &&
            decide (evalDiffAfter R (posFrom R p ms j) (posFrom R p ms (j + 1)) ≤
              (1 : Rat) / 2)) ∧
      (gameSpecAux R userColor p ms).bl =
        (List.range ms.length).countP
          (fun j => isUserMoveAt R (posFrom R p ms j) userColor &&
            decide (2 < evalDiffAfter R (posFrom R p ms j) (posFrom R p ms (j + 1)))) ∧
      (gameSpecAux R userColor p ms).mi =
        (List.range ms.length).countP
          (fun j => isUserMoveAt R (posFrom R p ms j) userColor &&
            decide (evalDiffAfter R (posFrom R p ms j) (posFrom R p ms (j + 1)) ≤ 2 ∧
              1 < evalDiffAfter R (posFrom R p ms j) (posFrom R p ms (j + 1)))) ∧
      (gameSpecAux R userColor p ms).ina =
        (List.range ms.length).countP
          (fun j => isUserMoveAt R (posFrom R p ms j) userColor &&
            decide (evalDiffAfter R (posFrom R p ms j) (posFrom R p ms (j + 1)) ≤ 1 ∧
              (1 : Rat) / 2 < evalDiffAfter R (posFrom R p ms j) (posFrom R p ms (j + 1)))) ∧
      (gameSpecAux R userColor p ms).exc =
        (List.range ms.length).countP
          (fun j => isUserMoveAt R (posFrom R p ms j) userColor &&
            decide (evalDiffAfter R (posFrom R p ms j) (posFrom R p ms (j + 1)) ≤
              (1 : Rat) / 2 ∧
              evalDiffAfter R (posFrom R p ms j) (posFrom R p ms (j + 1)) < (1 : Rat) / 5)) := by
  intro ms
  induction ms with
  | nil =>
    intro p
    refine ⟨?_, ?_, ?_, ?_, ?_, ?_⟩ <;> simp [gameSpecAux]
  | cons m t ih =>
    intro p
    obtain ⟨i1, i2, i3, i4, i5, i6⟩ := ih (stepPos R p m)
    have hlen : (m :: t).length = t.length + 1 := rfl
    have hshift : ∀ (cond : R.Pos → R.Pos → Bool),
        (List.range t.length).countP
          (fun j => cond (posFrom R p (m :: t) (j + 1)) (posFrom R p (m :: t) (j + 1 + 1))) =
        (List.range t.length).countP
          (fun j => cond (posFrom R (stepPos R p m) t j) (posFrom R (stepPos R p m) t (j + 1))) := by
      intro cond
      refine List.countP_congr ?_
      intro x _
      simp [posFrom_cons_succ]
    by_cases hu : isUserMoveAt R p userColor = true
    · have hL : gameSpecAux R userColor p (m :: t) =
          { tot := (gameSpecAux R userColor (stepPos R p m) t).tot + 1,
            good := (gameSpecAux R userColor (stepPos R p m) t).good +
              (classifyUpd (evalDiffAfter R p (stepPos R p m)) 0 0 0 0).1,
            bl := (gameSpecAux R userColor (stepPos R p m) t).bl +
              (classifyUpd (evalDiffAfter R p (stepPos R p m)) 0 0 0 0).2.1,
            mi := (gameSpecAux R userColor (stepPos R p m) t).mi +
              (classifyUpd (evalDiffAfter R p (stepPos R p m)) 0 0 0 0).2.2.1,
            ina := (gameSpecAux R userColor (stepPos R p m) t).ina +
              (classifyUpd (evalDiffAfter R p (stepPos R p m)) 0 0 0 0).2.2.2.1,
            exc := (gameSpecAux R userColor (stepPos R p m) t).exc +
              (if (classifyUpd (evalDiffAfter R p (stepPos R p m)) 0 0 0 0).2.2.2.2 = "excellent"
               then 1 else 0) } := by
        simp only [gameSpecAux, hu, if_true]
      rw [hL]
      refine ⟨?_, ?_, ?_, ?_, ?_, ?_⟩
      · show (gameSpecAux R userColor (stepPos R p m) t).tot + 1 = _
        rw [hlen, countP_range_succ]
        simp only [posFrom_zero, Nat.zero_add, posFrom_cons_one, hu, if_true]
        rw [hshift (fun a _ => isUserMoveAt R a userColor), ← i1]
      · show (gameSpecAux R userColor (stepPos R p m) t).good + _ = _
        rw [hlen, countP_range_succ]
        simp only [posFrom_zero, Nat.zero_add, posFrom_cons_one, hu, Bool.true_and, decide_eq_true_eq]
        rw [hshift (fun a b => isUserMoveAt R a userColor &&
          decide (evalDiffAfter R a b ≤ (1 : Rat) / 2)), ← i2, classifyUpd0_good]
      · show (gameSpecAux R userColor (stepPos R p m) t).bl + _ = _
        rw [hlen, countP_range_succ]
        simp only [posFrom_zero, Nat.zero_add, posFrom_cons_one, hu, Bool.true_and, decide_eq_true_eq]
        rw [hshift (fun a b => isUserMoveAt R a userColor &&
          decide (2 < evalDiffAfter R a b)), ← i3, classifyUpd0_bl]
      · show (gameSpecAux R userColor (stepPos R p m) t).mi + _ = _
        rw [hlen, countP_range_succ]
        simp only [posFrom_zero, Nat.zero_add, posFrom_cons_one, hu, Bool.true_and, decide_eq_true_eq]
        rw [hshift (fun a b => isUserMoveAt R a userColor &&
          decide (evalDiffAfter R a b ≤ 2 ∧ 1 < evalDiffAfter R a b)), ← i4, classifyUpd0_mi]
      · show (gameSpecAux R userColor (stepPos R p m) t).ina + _ = _
        rw [hlen, countP_range_succ]
        simp only [posFrom_zero, Nat.zero_add, posFrom_cons_one, hu, Bool.true_and, decide_eq_true_eq]
        rw [hshift (fun a b => isUserMoveAt R a userColor &&
          decide (evalDiffAfter R a b ≤ 1 ∧ (1 : Rat) / 2 < evalDiffAfter R a b)), ← i5,
          classifyUpd0_ina]
      · show (gameSpecAux R userColor (stepPos R p m) t).exc + _ = _
        rw [hlen, countP_range_succ]
        simp only [posFrom_zero, Nat.zero_add, posFrom_cons_one, hu, Bool.true_and, decide_eq_true_eq]
        rw [hshift (fun a b => isUserMoveAt R a userColor &&
          decide (evalDiffAfter R a b ≤ (1 : Rat) / 2 ∧ evalDiffAfter R a b < (1 : Rat) / 5)),
          ← i6, classifyUpd0_exc]
    · have hufalse : isUserMoveAt R p userColor = false := by
        simpa using hu
      have hL : gameSpecAux R userColor p (m :: t) =
          gameSpecAux R userColor (stepPos R p m) t := by
        simp only [gameSpecAux]
        rw [if_neg hu]
      rw [hL]
      refine ⟨?_, ?_, ?_, ?_, ?_, ?_⟩
      · rw [hlen, countP_range_succ]
        simp only [posFrom_zero, hufalse]
        rw [hshift (fun a _ => isUserMoveAt R a userColor), ← i1]
        simp
      · rw [hlen, countP_range_succ]
        simp only [posFrom_zero, hufalse, Bool.false_and]
        rw [hshift (fun a b => isUserMoveAt R a userColor &&
          decide (evalDiffAfter R a b ≤ (1 : Rat) / 2)), ← i2]
        simp
      · rw [hlen, countP_range_succ]
        simp only [posFrom_zero, hufalse, Bool.false_and]
        rw [hshift (fun a b => isUserMoveAt R a userColor &&
          decide (2 < evalDiffAfter R a b)), ← i3]
        simp
      · rw [hlen, countP_range_succ]
        simp only [posFrom_zero, hufalse, Bool.false_and]
        rw [hshift (fun a b => isUserMoveAt R a userColor &&
          decide (evalDiffAfter R a b ≤ 2 ∧ 1 < evalDiffAfter R a b)), ← i4]
        simp
      · rw [hlen, countP_range_succ]
        simp only [posFrom_zero, hufalse, Bool.false_and]
        rw [hshift (fun a b => isUserMoveAt R a userColor &&
          decide (evalDiffAfter R a b ≤ 1 ∧ (1 : Rat) / 2 < evalDiffAfter R a b)), ← i5]
        simp
      · rw [hlen, countP_range_succ]
        simp only [posFrom_zero, hufalse, Bool.false_and]
        rw [hshift (fun a b => isUserMoveAt R a userColor &&
          decide (evalDiffAfter R a b ≤ (1 : Rat) / 2 ∧
            evalDiffAfter R a b < (1 : Rat) / 5)), ← i6]
        simp

/-- Whether half-move `j` of the game is played by the user. -/
def userTurnAt (R : Rules) (userColor : String) (ms : List ChessMove) (j : Nat) : Bool :=
  isUserMoveAt R (posFrom R R.initial ms j) userColor

/-- Claim C4's evaluation difference at half-move `j`:
`|bestMove.evaluation − afterMoveEvaluation|`, the best move queried on
the position before the move and the material evaluation taken on the
position after the played move. -/
def evalDiffAt (R : Rules) (ms : List ChessMove) (j : Nat) : Rat :=
  evalDiffAfter R (posFrom R R.initial ms j) (posFrom R R.initial ms (j + 1))

/-- C4: on a fully replayable game with a FEN round-tripping rules engine,
`runGameAnalysis` classifies every user move by the threshold chain on
`evalDiff` — more than 2 a blunder, otherwise more than 1 a mistake,
otherwise more than 0.5 an inaccuracy, otherwise a good move, recorded as
an excellent key moment exactly when `evalDiff < 0.2` — and the returned
accuracy is `goodMoves / totalUserMoves * 100`, or 0 with no user moves. -/
theorem runGameAnalysis_classification (R : Rules) (chess eng : EngineSt R)
    (g : ChessGame) (userColor : String) (hl : LoadFen R)
    (hr : replayOk R R.initial g.moves = true) :
    (runGameAnalysis R chess eng g userColor).1.blunders =
      (List.range g.moves.length).countP
        (fun j => userTurnAt R userColor g.moves j &&
          decide (2 < evalDiffAt R g.moves j)) ∧
    (runGameAnalysis R chess eng g userColor).1.mistakes =
      (List.range g.moves.length).countP
        (fun j => userTurnAt R userColor g.moves j &&
          decide (evalDiffAt R g.moves j ≤ 2 ∧ 1 < evalDiffAt R g.moves j)) ∧
    (runGameAnalysis R chess eng g userColor).1.inaccuracies =
      (List.range g.moves.length).countP
        (fun j => userTurnAt R userColor g.moves j &&
          decide (evalDiffAt R g.moves j ≤ 1 ∧ (1 : Rat) / 2 < evalDiffAt R g.moves j)) ∧
    ((runGameAnalysis R chess eng g userColor).1.keyMoments).countP kmExcP =
      (List.range g.moves.length).countP
        (fun j => userTurnAt R userColor g.moves j &&
          decide (evalDiffAt R g.moves j ≤ (1 : Rat) / 2 ∧
            evalDiffAt R g.moves j < (1 : Rat) / 5)) ∧
    (runGameAnalysis R chess eng g userColor).1.accuracy =
      (if 0 < (List.range g.moves.length).countP
          (fun j => userTurnAt R userColor g.moves j) then
        (((List.range g.moves.length).countP
            (fun j => userTurnAt R userColor g.moves j &&
              decide (evalDiffAt R g.moves j ≤ (1 : Rat) / 2)) : Rat) /
          (((List.range g.moves.length).countP
            (fun j => userTurnAt R userColor g.moves j) : Nat) : Rat)) * 100
      else 0) := by
  obtain ⟨t1, t2, t3, t4, t5, t6⟩ :=
    gameLoop_counts R userColor hl g.moves
      { st := chess.reset, eng := eng, i := 0, totalMoves := 0, goodMoves := 0,
        blunders := 0, mistakes := 0, inaccuracies := 0, keyMoments := [] } hr
  obtain ⟨c1, c2, c3, c4, c5, c6⟩ := gameSpecAux_counts R userColor g.moves R.initial
  have t1' : (gameLoop R userColor g.moves
      { st := chess.reset, eng := eng, i := 0, totalMoves := 0, goodMoves := 0,
        blunders := 0, mistakes := 0, inaccuracies := 0, keyMoments := [] }).totalMoves =
      0 + (gameSpecAux R userColor R.initial g.moves).tot := t1
  have t2' : (gameLoop R userColor g.moves
      { st := chess.reset, eng := eng, i := 0, totalMoves := 0, goodMoves := 0,
        blunders := 0, mistakes := 0, inaccuracies := 0, keyMoments := [] }).goodMoves =
      0 + (gameSpecAux R userColor R.initial g.moves).good := t2
  have t3' : (gameLoop R userColor g.moves
      { st := chess.reset, eng := eng, i := 0, totalMoves := 0, goodMoves := 0,
        blunders := 0, mistakes := 0, inaccuracies := 0, keyMoments := [] }).blunders =
      0 + (gameSpecAux R userColor R.initial g.moves).bl := t3
  have t4' : (gameLoop R userColor g.moves
      { st := chess.reset, eng := eng, i := 0, totalMoves := 0, goodMoves := 0,
        blunders := 0, mistakes := 0, inaccuracies := 0, keyMoments := [] }).mistakes =
      0 + (gameSpecAux R userColor R.initial g.moves).mi := t4
  have t5' : (gameLoop R userColor g.moves
      { st := chess.reset, eng := eng, i := 0, totalMoves := 0, goodMoves := 0,
        blunders := 0, mistakes := 0, inaccuracies := 0, keyMoments := [] }).inaccuracies =
      0 + (gameSpecAux R userColor R.initial g.moves).ina := t5
  have t6' : ((gameLoop R userColor g.moves
      { st := chess.reset, eng := eng, i := 0, totalMoves := 0, goodMoves := 0,
        blunders := 0, mistakes := 0, inaccuracies := 0,
        keyMoments := [] }).keyMoments).countP kmExcP =
      0 + (gameSpecAux R userColor R.initial g.moves).exc := t6
  refine ⟨?_, ?_, ?_, ?_, ?_⟩
  · simp only [userTurnAt, evalDiffAt]
    show (gameLoop R userColor g.moves
      { st := chess.reset, eng := eng, i := 0, totalMoves := 0, goodMoves := 0,
        blunders := 0, mistakes := 0, inaccuracies := 0, keyMoments := [] }).blunders = _
    rw [t3', Nat.zero_add, c3]
  · simp only [userTurnAt, evalDiffAt]
    show (gameLoop R userColor g.moves
      { st := chess.reset, eng := eng, i := 0, totalMoves := 0, goodMoves := 0,
        blunders := 0, mistakes := 0, inaccuracies := 0, keyMoments := [] }).mistakes = _
    rw [t4', Nat.zero_add, c4]
  · simp only [userTurnAt, evalDiffAt]
    show (gameLoop R userColor g.moves
      { st := chess.reset, eng := eng, i := 0, totalMoves := 0, goodMoves := 0,
        blunders := 0, mistakes := 0, inaccuracies := 0, keyMoments := [] }).inaccuracies = _
    rw [t5', Nat.zero_add, c5]
  · simp only [userTurnAt, evalDiffAt]
    show ((gameLoop R userColor g.moves
      { st := chess.reset, eng := eng, i := 0, totalMoves := 0, goodMoves := 0,
        blunders := 0, mistakes := 0, inaccuracies := 0,
        keyMoments := [] }).keyMoments).countP kmExcP = _
    rw [t6', Nat.zero_add, c6]
  · simp only [userTurnAt, evalDiffAt]
    show (if 0 < (gameLoop R userColor g.moves
        { st := chess.reset, eng := eng, i := 0, totalMoves := 0, goodMoves := 0,
          blunders := 0, mistakes := 0, inaccuracies := 0, keyMoments := [] }).totalMoves then
        (((gameLoop R userColor g.moves
          { st := chess.reset, eng := eng, i := 0, totalMoves := 0, goodMoves := 0,
            blunders := 0, mistakes := 0, inaccuracies := 0,
            keyMoments := [] }).goodMoves : Rat) /
          ((gameLoop R userColor g.moves
          { st := chess.reset, eng := eng, i := 0, totalMoves := 0, goodMoves := 0,
            blunders := 0, mistakes := 0, inaccuracies := 0,
            keyMoments := [] }).totalMoves : Rat)) * 100
      else 0) = _
    rw [t1', t2', Nat.zero_add, Nat.zero_add, c1, c2]

/-- Witness for C4: the one-move game `a3` on the two-state engine, whose
FEN round-trip holds and whose replay succeeds. -/
theorem runGameAnalysis_classification_witness :
    (runGameAnalysis simpleRules simpleSt0 simpleSt0
        { moves := [{ move := "a3" }], rawPgn := "" } "white").1.blunders =
      (List.range ([{ move := "a3" }] : List ChessMove).length).countP
        (fun j => userTurnAt simpleRules "white" [{ move := "a3" }] j &&
          decide (2 < evalDiffAt simpleRules [{ move := "a3" }] j)) ∧
    (runGameAnalysis simpleRules simpleSt0 simpleSt0
        { moves := [{ move := "a3" }], rawPgn := "" } "white").1.mistakes =
      (List.range ([{ move := "a3" }] : List ChessMove).length).countP
        (fun j => userTurnAt simpleRules "white" [{ move := "a3" }] j &&
          decide (evalDiffAt simpleRules [{ move := "a3" }] j ≤ 2 ∧
            1 < evalDiffAt simpleRules [{ move := "a3" }] j)) ∧
    (runGameAnalysis simpleRules simpleSt0 simpleSt0
        { moves := [{ move := "a3" }], rawPgn := "" } "white").1.inaccuracies =
      (List.range ([{ move := "a3" }] : List ChessMove).length).countP
        (fun j => userTurnAt simpleRules "white" [{ move := "a3" }] j &&
          decide (evalDiffAt simpleRules [{ move := "a3" }] j ≤ 1 ∧
            (1 : Rat) / 2 < evalDiffAt simpleRules [{ move := "a3" }] j)) ∧
    ((runGameAnalysis simpleRules simpleSt0 simpleSt0
        { moves := [{ move := "a3" }], rawPgn := "" } "white").1.keyMoments).countP kmExcP =
      (List.range ([{ move := "a3" }] : List ChessMove).length).countP
        (fun j => userTurnAt simpleRules "white" [{ move := "a3" }] j &&
          decide (evalDiffAt simpleRules [{ move := "a3" }] j ≤ (1 : Rat) / 2 ∧
            evalDiffAt simpleRules [{ move := "a3" }] j < (1 : Rat) / 5)) ∧
    (runGameAnalysis simpleRules simpleSt0 simpleSt0
        { moves := [{ move := "a3" }], rawPgn := "" } "white").1.accuracy =
      (if 0 < (List.range ([{ move := "a3" }] : List ChessMove).length).countP
          (fun j => userTurnAt simpleRules "white" [{ move := "a3" }] j) then
        (((List.range ([{ move := "a3" }] : List ChessMove).length).countP
            (fun j => userTurnAt simpleRules "white" [{ move := "a3" }] j &&
              decide (evalDiffAt simpleRules [{ move := "a3" }] j ≤ (1 : Rat) / 2)) : Rat) /
          (((List.range ([{ move := "a3" }] : List ChessMove).length).countP
            (fun j => userTurnAt simpleRules "white" [{ move := "a3" }] j) : Nat) : Rat)) * 100
      else 0) :=
  runGameAnalysis_classification simpleRules simpleSt0 simpleSt0
    { moves := [{ move := "a3" }], rawPgn := "" } "white"
    (by unfold LoadFen; decide) (by decide)

end ChessDash
